import Mathlib

/-!
Verification development for the Crypt-Arbitrage monitoring engine.

Monetary values (Python `Decimal`) are embedded as exact rationals (`ℚ`);
timestamps are embedded as integers counting seconds.  Python dictionaries
are embedded as association lists (`List (key × value)`); the dictionary
invariant (no duplicate keys) appears as an explicit hypothesis where a
theorem needs it.
-/

namespace CryptArb

/-! ## Quotes and the direct-arbitrage detector

Embedding of `src/analyzers/arbitrage_detector.py` (`ArbitrageDetector`).
A `Quote` is one entry of the `prices` dict passed to
`detect_opportunities`: the fields `bid`, `ask`, `bid_size`, `ask_size`
of the latest tick of one exchange. -/

structure Quote where
  bid : ℚ
  ask : ℚ
  bidSize : ℚ
  askSize : ℚ
  deriving Repr, DecidableEq

/-- One element of the list returned by `detect_opportunities` (the dict
appended at `arbitrage_detector.py:245`). -/
structure Opportunity where
  buyExchange : String
  sellExchange : String
  pairSymbol : String
  buyPrice : ℚ
  sellPrice : ℚ
  priceDiffPct : ℚ
  maxVolume : ℚ
  buyFees : ℚ
  sellFees : ℚ
  transferFee : ℚ
  totalFeesPct : ℚ
  estimatedProfitPct : ℚ
  deriving Repr, DecidableEq

/-- The configuration surface `detect_opportunities` reads:
`exchanges_config[code]['taker_fee']` (default 0, both sides of
`calculate_fees` use the taker rate), `withdrawal_fees` of the buy venue
(default 0), `max_position_sizes` (default 0.1 for unknown base
currencies) and `min_profit_threshold` (default 0.003). -/
structure DetectorConfig where
  takerFee : String → ℚ
  withdrawalFee : String → String → ℚ
  maxPositionSize : String → ℚ
  minProfitThreshold : ℚ

/-- `ArbitrageDetector.calculate_fees` (both branches return
`amount * price * taker_fee`). -/
def calculateFees (cfg : DetectorConfig) (exchangeCode : String)
    (amount price : ℚ) : ℚ :=
  amount * price * cfg.takerFee exchangeCode

/-- `ArbitrageDetector.calculate_transfer_fee`: withdrawal fee of the
source exchange for the given currency. -/
def calculateTransferFee (cfg : DetectorConfig) (fromExchange : String)
    (currency : String) : ℚ :=
  cfg.withdrawalFee fromExchange currency

/-- `pair_symbol.split('/')[0]`: the base currency of a canonical symbol
(the characters before the first `/`). -/
def baseOf (pairSymbol : String) : String :=
  String.mk (pairSymbol.data.takeWhile fun c => c ≠ '/')

/-- Body of the double loop of `detect_opportunities`
(`arbitrage_detector.py:179-259`) for one ordered pair of `prices` dict
entries, `e1` enumerated before `e2`.  Returns the candidate appended for
this exchange pair, if any.

The direction test `sell_price > buy_price` compares `e2.bid` with
`e1.ask`; in the taken branch the final buy price is the buy venue's
`ask` and the final sell price is the sell venue's `bid`, and the later
dict lookups `prices[final_buy_exchange]['ask_size']` /
`prices[final_sell_exchange]['bid_size']` resolve to those same entries
(dict keys are unique), which is how they are embedded here. -/
def checkPair (cfg : DetectorConfig) (pairSymbol : String)
    (e1 e2 : String × Quote) : Option Opportunity :=
  let buyPrice := e1.2.ask
  let sellPrice := e2.2.bid
  let buyPriceRev := e2.2.ask
  let sellPriceRev := e1.2.bid
  -- `if not all([...]): continue` (0 is falsy) plus `if any(p <= 0): continue`
  if buyPrice ≤ 0 ∨ sellPrice ≤ 0 ∨ buyPriceRev ≤ 0 ∨ sellPriceRev ≤ 0 then
    none
  else
    let chosen := if sellPrice > buyPrice then (e1, e2) else (e2, e1)
    let buyEntry := chosen.1
    let sellEntry := chosen.2
    let finalBuyPrice := buyEntry.2.ask
    let finalSellPrice := sellEntry.2.bid
    let priceDiff := finalSellPrice - finalBuyPrice
    if finalBuyPrice = 0 then none
    else
      let priceDiffPct := priceDiff / finalBuyPrice * 100
      if priceDiffPct < cfg.minProfitThreshold * 100 then none
      else
        let maxVolume :=
          min (min buyEntry.2.askSize sellEntry.2.bidSize)
            (cfg.maxPositionSize (baseOf pairSymbol))
        let buyFees := calculateFees cfg buyEntry.1 maxVolume finalBuyPrice
        let sellFees := calculateFees cfg sellEntry.1 maxVolume finalSellPrice
        let transferFee := calculateTransferFee cfg buyEntry.1 (baseOf pairSymbol)
        let totalFees := buyFees + sellFees + transferFee
        if maxVolume = 0 ∨ finalBuyPrice = 0 then none
        else
          let totalFeesPct := totalFees / (maxVolume * finalBuyPrice) * 100
          let estimatedProfitPct := priceDiffPct - totalFeesPct
          if estimatedProfitPct > 0 then
            some
              { buyExchange := buyEntry.1
                sellExchange := sellEntry.1
                pairSymbol := pairSymbol
                buyPrice := finalBuyPrice
                sellPrice := finalSellPrice
                priceDiffPct := priceDiffPct
                maxVolume := maxVolume
                buyFees := buyFees
                sellFees := sellFees
                transferFee := transferFee
                totalFeesPct := totalFeesPct
                estimatedProfitPct := estimatedProfitPct }
          else none

/-- The index pattern `for i, x in enumerate(xs): for y in xs[i+1:]`:
every unordered pair of distinct positions, each exactly once, in
enumeration order. -/
def pairCombos : List α → List (α × α)
  | [] => []
  | x :: xs => xs.map (fun y => (x, y)) ++ pairCombos xs

/-- Stable descending insertion used to embed
`opportunities.sort(key=..., reverse=True)`. -/
def insertDesc (o : Opportunity) : List Opportunity → List Opportunity
  | [] => [o]
  | x :: xs =>
    if x.estimatedProfitPct < o.estimatedProfitPct then o :: x :: xs
    else x :: insertDesc o xs

/-- Embedding of the final `sort(..., reverse=True)` of
`detect_opportunities`; only the membership of the result matters to the
claims. -/
def sortDesc (l : List Opportunity) : List Opportunity :=
  l.foldr insertDesc []

/-- `ArbitrageDetector.detect_opportunities`: enumerate every unordered
pair of `prices` dict entries, collect the candidates, sort by estimated
profit descending. -/
def detectOpportunities (cfg : DetectorConfig) (prices : List (String × Quote))
    (pairSymbol : String) : List Opportunity :=
  sortDesc ((pairCombos prices).filterMap fun p => checkPair cfg pairSymbol p.1 p.2)

/-- The default configuration of `ArbitrageDetector.__init__` with an
empty `exchanges.yaml` fee table: taker fees and withdrawal fees default
to 0, position caps to `max_position_sizes` (BTC 0.1, ETH 1.0, XRP 10000,
otherwise 0.1), threshold `Decimal("0.003")`. -/
def defaultDetectorConfig : DetectorConfig where
  takerFee := fun _ => 0
  withdrawalFee := fun _ _ => 0
  maxPositionSize := fun c =>
    if c = "BTC" then 1/10 else if c = "ETH" then 1 else if c = "XRP" then 10000 else 1/10
  minProfitThreshold := 3/1000

/-! ### Spec-side definitions for the direct-arbitrage claim

These follow the specification's words ("let `buy = min(A.ask, B.ask)`
and `sell = max(A.bid, B.bid)` with venues assigned accordingly") and are
compared with the code-side `checkPair` above. -/

/-- Spec-side buy price: `min(A.ask, B.ask)`. -/
def specBuyPrice (qa qb : Quote) : ℚ := min qa.ask qb.ask

/-- Spec-side sell price: `max(A.bid, B.bid)`. -/
def specSellPrice (qa qb : Quote) : ℚ := max qa.bid qb.bid

/-- Spec-side `price_diff_pct = (sell - buy) / buy × 100`. -/
def specPriceDiffPct (qa qb : Quote) : ℚ :=
  (specSellPrice qa qb - specBuyPrice qa qb) / specBuyPrice qa qb * 100

/-- Spec-side venue assignment: the buy entry is the one attaining the
minimum ask, the sell entry the one attaining the maximum bid. -/
def specBuyEntry (a : String) (qa : Quote) (b : String) (qb : Quote) : String × Quote :=
  if qa.ask ≤ qb.ask then (a, qa) else (b, qb)

/-- Spec-side sell entry (attains the maximum bid). -/
def specSellEntry (a : String) (qa : Quote) (b : String) (qb : Quote) : String × Quote :=
  if qb.bid ≤ qa.bid then (a, qa) else (b, qb)

/-- The candidate that the spec's venue assignment produces, with all
derived figures computed by the code's own formulas
(`arbitrage_detector.py:212-257`). -/
def specOpportunity (cfg : DetectorConfig) (pairSymbol : String)
    (a : String) (qa : Quote) (b : String) (qb : Quote) : Opportunity :=
  let buyE := specBuyEntry a qa b qb
  let sellE := specSellEntry a qa b qb
  let buyP := buyE.2.ask
  let sellP := sellE.2.bid
  let priceDiffPct := (sellP - buyP) / buyP * 100
  let maxVolume :=
    min (min buyE.2.askSize sellE.2.bidSize) (cfg.maxPositionSize (baseOf pairSymbol))
  let buyFees := calculateFees cfg buyE.1 maxVolume buyP
  let sellFees := calculateFees cfg sellE.1 maxVolume sellP
  let transferFee := calculateTransferFee cfg buyE.1 (baseOf pairSymbol)
  let totalFeesPct := (buyFees + sellFees + transferFee) / (maxVolume * buyP) * 100
  { buyExchange := buyE.1
    sellExchange := sellE.1
    pairSymbol := pairSymbol
    buyPrice := buyP
    sellPrice := sellP
    priceDiffPct := priceDiffPct
    maxVolume := maxVolume
    buyFees := buyFees
    sellFees := sellFees
    transferFee := transferFee
    totalFeesPct := totalFeesPct
    estimatedProfitPct := priceDiffPct - totalFeesPct }

/-- Spec-side estimated profit: the `estimated_profit_pct` the code's
formulas yield at the spec's venue assignment. -/
def specEstimatedProfitPct (cfg : DetectorConfig) (pairSymbol : String)
    (a : String) (qa : Quote) (b : String) (qb : Quote) : ℚ :=
  (specOpportunity cfg pairSymbol a qa b qb).estimatedProfitPct

/-! ## The advanced analyzer

Embedding of `src/analyzers/advanced_arbitrage.py`
(`AdvancedArbitrageAnalyzer`).  Monetary fields that the source converts
with `float(...)` when building the result dict are kept exact here. -/

/-- One entry of the per-pair `exchanges_dict` built by
`analyze_direct_arbitrage` (`advanced_arbitrage.py:106-112`). -/
structure ExInfo where
  exchangeCode : String
  exchangeName : String
  bid : ℚ
  ask : ℚ
  ts : ℤ
  deriving Repr, DecidableEq

/-- The dict returned by `_check_arbitrage_opportunity`. -/
structure AdvOpportunity where
  arbType : String
  pair : String
  buyExchange : String
  buyExchangeCode : String
  sellExchange : String
  sellExchangeCode : String
  buyPrice : ℚ
  sellPrice : ℚ
  effectiveBuyPrice : ℚ
  effectiveSellPrice : ℚ
  profit : ℚ
  profitPercentage : ℚ
  buyFeeRate : ℚ
  sellFeeRate : ℚ
  buyTs : ℤ
  sellTs : ℤ
  deriving Repr, DecidableEq

/-- The hard-coded `exchange_fees` table of
`AdvancedArbitrageAnalyzer.__init__`, read with
`.get(code, Decimal('0.002'))`. -/
def advExchangeFees (code : String) : ℚ :=
  if code = "bitflyer" then 15/10000
  else if code = "bitbank" then 12/10000
  else if code = "coincheck" then 15/10000
  else if code = "gmo" then 5/10000
  else if code = "bybit" then 1/1000
  else if code = "binance" then 1/1000
  else 2/1000

/-- The tail of `_check_arbitrage_opportunity` after the buy/sell venue
assignment (`advanced_arbitrage.py:316-360`): fee-effective prices,
profit percentage, per-type threshold check, result dict. -/
def advProfitCheck (minProfitThreshold : ℚ) (pairSymbol : String) (arbType : String)
    (buyExchange sellExchange : ExInfo) : Option AdvOpportunity :=
  let buyPrice := buyExchange.ask
  let sellPrice := sellExchange.bid
  let buyFee := advExchangeFees buyExchange.exchangeCode
  let sellFee := advExchangeFees sellExchange.exchangeCode
  let effectiveBuyPrice := buyPrice * (1 + buyFee)
  let effectiveSellPrice := sellPrice * (1 - sellFee)
  let profit := effectiveSellPrice - effectiveBuyPrice
  let profitPercentage := profit / effectiveBuyPrice * 100
  let threshold :=
    if arbType = "cross_rate" then (1 : ℚ)/1000
    else if arbType = "triangle" then (2 : ℚ)/1000
    else minProfitThreshold
  if profitPercentage < threshold * 100 then none
  else
    some
      { arbType := arbType
        pair := pairSymbol
        buyExchange := buyExchange.exchangeName
        buyExchangeCode := buyExchange.exchangeCode
        sellExchange := sellExchange.exchangeName
        sellExchangeCode := sellExchange.exchangeCode
        buyPrice := buyPrice
        sellPrice := sellPrice
        effectiveBuyPrice := effectiveBuyPrice
        effectiveSellPrice := effectiveSellPrice
        profit := profit
        profitPercentage := profitPercentage
        buyFeeRate := buyFee
        sellFeeRate := sellFee
        buyTs := buyExchange.ts
        sellTs := sellExchange.ts }

/-- `AdvancedArbitrageAnalyzer._check_arbitrage_opportunity`.
`minProfitThreshold` is the analyzer's `min_profit_threshold`
(`Decimal('0.003')` when constructed without a config, as the global
`advanced_analyzer` is); the cross-rate and triangle thresholds are the
hard-coded `Decimal('0.001')` and `Decimal('0.002')`. -/
def checkArbitrageOpportunity (minProfitThreshold : ℚ) (pairSymbol : String)
    (exchange1 exchange2 : ExInfo) (arbType : String) : Option AdvOpportunity :=
  if exchange1.ask < exchange2.bid then
    advProfitCheck minProfitThreshold pairSymbol arbType exchange1 exchange2
  else if exchange2.ask < exchange1.bid then
    advProfitCheck minProfitThreshold pairSymbol arbType exchange2 exchange1
  else none

/-- The per-pair combination loop of `analyze_direct_arbitrage`
(`advanced_arbitrage.py:123-137`): all index pairs `i < j` over the
values of the per-pair dict, skipping entries with equal exchange codes,
then `_check_arbitrage_opportunity` with type `direct`. -/
def directPairOpportunities (minProfitThreshold : ℚ) (pairSymbol : String)
    (entries : List ExInfo) : List AdvOpportunity :=
  (pairCombos entries).filterMap fun p =>
    if p.1.exchangeCode = p.2.exchangeCode then none
    else checkArbitrageOpportunity minProfitThreshold pairSymbol p.1 p.2 "direct"

/-! ## The detection hot-path reads

Embedding of `ArbitrageDetector.get_latest_prices`
(`arbitrage_detector.py:84-128`) and of the latest-per-exchange grouping
of `AdvancedArbitrageAnalyzer.analyze_direct_arbitrage`
(`advanced_arbitrage.py:79-112`).  A `Tick` is one stored `PriceTick`
row for the pair under analysis. -/

structure Tick where
  exchange : String
  ts : ℤ
  bid : ℚ
  ask : ℚ
  bidSize : ℚ
  askSize : ℚ
  deriving Repr, DecidableEq

/-- The freshness filter of `get_latest_prices`:
`timestamp > now - timedelta(minutes=1)`. -/
def freshDet (now : ℤ) (t : Tick) : Bool :=
  decide (now - 60 < t.ts)

/-- The rows produced by the `get_latest_prices` query: ticks of the pair
that pass the freshness filter and carry the maximal timestamp among the
fresh ticks of their exchange (the grouped-max subquery join of
`arbitrage_detector.py:99-117`). -/
def latestRows (now : ℤ) (ticks : List Tick) : List Tick :=
  ticks.filter fun t =>
    freshDet now t &&
      ticks.all fun u => decide (u.exchange = t.exchange → freshDet now u = true → u.ts ≤ t.ts)

/-- The `prices` dict `get_latest_prices` returns, keyed by exchange
code. -/
def latestPricesDict (now : ℤ) (ticks : List Tick) : List (String × Tick) :=
  (latestRows now ticks).map fun t => (t.exchange, t)

/-- The freshness filter of `analyze_direct_arbitrage`:
`timestamp >= now - timedelta(minutes=5)`. -/
def freshAdv (now : ℤ) (t : Tick) : Bool :=
  decide (now - 300 ≤ t.ts)

/-- Association-list lookup with propositional key equality (Python dict
`d[k]` / `k in d`). -/
def alookup (k : String) : List (String × α) → Option α
  | [] => none
  | p :: ps => if p.1 = k then some p.2 else alookup k ps

/-- One step of the grouping loop of `analyze_direct_arbitrage`
(`advanced_arbitrage.py:103-112`): keep the entry with the strictly
newer timestamp per exchange code. -/
def keepLatest (m : List (String × Tick)) (t : Tick) : List (String × Tick) :=
  match alookup t.exchange m with
  | none => m ++ [(t.exchange, t)]
  | some u =>
    if u.ts < t.ts then m.map fun p => if p.1 = t.exchange then (t.exchange, t) else p
    else m

/-- The per-pair dict of the advanced analyzer's read: fresh rows within
300 s folded into a latest-per-exchange dict. -/
def advancedLatest (now : ℤ) (ticks : List Tick) : List (String × Tick) :=
  (ticks.filter (freshAdv now)).foldl keepLatest []

/-! ## bitFlyer adapter and persistence

Embedding of `BitFlyerClient.get_ticker` (`collectors/bitflyer.py:51-77`)
and `save_price_tick` (`database/models.py:170-188`). -/

/-- The fields of the bitFlyer `/v1/ticker` response the adapter reads
(numeric strings already taken to exact values, the timestamp already
parsed). -/
structure BitflyerTicker where
  tsParsed : ℤ
  bestBid : ℚ
  bestAsk : ℚ
  bestBidSize : ℚ
  bestAskSize : ℚ
  ltp : ℚ
  volume : ℚ
  deriving Repr, DecidableEq

/-- The canonical quote dict (`PriceData.to_dict`) produced by an
adapter. -/
structure PriceDataRec where
  exchangeCode : String
  symbol : String
  ts : ℤ
  bid : ℚ
  ask : ℚ
  bidSize : ℚ
  askSize : ℚ
  lastPrice : ℚ
  volume24h : ℚ
  deriving Repr, DecidableEq

/-- `BitFlyerClient.normalize_symbol`: `BTC/JPY → BTC_JPY`. -/
def bitflyerNormalizeSymbol (symbol : String) : String :=
  symbol.replace "/" "_"

/-- `BitFlyerClient.get_ticker` on a successfully fetched and parsed
response: field-by-field normalization into a `PriceData`.  The source
performs no validation of `bid`, `ask` or their order. -/
def bitflyerGetTicker (symbol : String) (data : BitflyerTicker) : PriceDataRec :=
  { exchangeCode := "bitflyer"
    symbol := symbol
    ts := data.tsParsed
    bid := data.bestBid
    ask := data.bestAsk
    bidSize := data.bestBidSize
    askSize := data.bestAskSize
    lastPrice := data.ltp
    volume24h := data.volume }

/-- A persisted `price_ticks` row. -/
structure PriceTickRow where
  exchangeId : ℕ
  pairId : ℕ
  ts : ℤ
  bid : ℚ
  ask : ℚ
  bidSize : ℚ
  askSize : ℚ
  lastPrice : ℚ
  volume24h : ℚ
  deriving Repr, DecidableEq

/-- `save_price_tick` in the case where exchange and pair rows exist
(ids given): builds the `PriceTick` and appends it.  The source performs
no validation of the quote before persisting. -/
def savePriceTick (dbRows : List PriceTickRow) (exchangeId pairId : ℕ)
    (pd : PriceDataRec) : List PriceTickRow :=
  dbRows ++
    [{ exchangeId := exchangeId
       pairId := pairId
       ts := pd.ts
       bid := pd.bid
       ask := pd.ask
       bidSize := pd.bidSize
       askSize := pd.askSize
       lastPrice := pd.lastPrice
       volume24h := pd.volume24h }]

/-! ## Binance monitoring-only stubs

Embedding of `BinanceCollector.place_order`, `cancel_order` and
`get_orders` (`collectors/binance.py:517-531`).  The codomain is
`Except String _` so that "raises an error" is representable; the source
bodies are `return {}` / `return []`. -/

def binancePlaceOrder (symbol side : String) (size : ℚ) (orderType : String)
    (price : Option ℚ) : Except String (List (String × String)) :=
  .ok []

def binanceCancelOrder (orderId : String) (symbol : Option String) :
    Except String (List (String × String)) :=
  .ok []

def binanceGetOrders (symbol status : Option String) :
    Except String (List (List (String × String))) :=
  .ok []

/-! ## FX rate service

Embedding of `FXRateService` (`services/fx_rate_service.py`).  Network
fetches are passed in as the ordered list of the three sources' results
for the refresh under consideration. -/

structure FXState where
  rates : List (String × ℚ)
  lastUpdate : Option ℤ
  deriving Repr, DecidableEq

/-- The constructor's `fallback_rates` table. -/
def fallbackRates : List (String × ℚ) := [("USDJPY", 155)]

/-- `FXRateService._should_update`: no update yet, or the cached value is
older than the 5-minute refresh interval. -/
def shouldUpdate (s : FXState) (now : ℤ) : Bool :=
  match s.lastUpdate with
  | none => true
  | some t => decide (300 < now - t)

/-- Python dict assignment `d[k] = v`. -/
def dictSet (m : List (String × α)) (k : String) (v : α) : List (String × α) :=
  match alookup k m with
  | some _ => m.map fun p => if p.1 = k then (k, v) else p
  | none => m ++ [(k, v)]

/-- The source cascade of `update_rates`: first successful fetch wins. -/
def firstRate : List (Option ℚ) → Option ℚ
  | [] => none
  | some r :: _ => some r
  | none :: rest => firstRate rest

/-- `FXRateService.update_rates`: on success cache the rate and stamp
`last_update`; when every source fails, overwrite the cache with the
hard-coded fallback (`fx_rate_service.py:70-76`), leaving `last_update`
unchanged. -/
def updateRates (s : FXState) (now : ℤ) (fetches : List (Option ℚ)) : FXState :=
  match firstRate fetches with
  | some r => { rates := dictSet s.rates "USDJPY" r, lastUpdate := some now }
  | none => { rates := dictSet s.rates "USDJPY" 155, lastUpdate := s.lastUpdate }

/-- `FXRateService.get_rate`: refresh when due, then
`rates.get(pair, fallback_rates.get(pair, Decimal('155.0')))`. -/
def getRate (s : FXState) (now : ℤ) (fetches : List (Option ℚ)) (pair : String) :
    FXState × ℚ :=
  let s1 := if shouldUpdate s now then updateRates s now fetches else s
  (s1, ((alookup pair s1.rates).getD ((alookup pair fallbackRates).getD 155)))

/-! ## Notification manager

Embedding of `NotificationManager` (`notifications/manager.py`).  The
state is the per-route `last_arbitrage_notification` dict and the
`hourly_notification_count` timestamps; the config reads
(`should_send_arbitrage_notification`, webhook success) enter as the
booleans of each event. -/

structure NotifState where
  lastArb : List (String × ℤ)
  hourly : List ℤ
  deriving Repr, DecidableEq

/-- `NotificationManager._is_cooldown_active` for route `key` at time
`now` with `cooldown_minutes = cd`. -/
def cooldownActive (cd : ℤ) (s : NotifState) (now : ℤ) (key : String) : Bool :=
  match alookup key s.lastArb with
  | none => false
  | some t => decide (now - t < cd * 60)

/-- `NotificationManager._is_hourly_limit_reached`. -/
def hourlyLimitReached (maxPerHour : ℕ) (s : NotifState) (now : ℤ) : Bool :=
  decide (maxPerHour ≤ (s.hourly.filter fun ts => decide (now - 3600 < ts)).length)

/-- `NotificationManager.send_arbitrage_alert` for an alert whose route
key is `key`: threshold gate (`shouldSend`, the outcome of
`should_send_arbitrage_notification`), cooldown gate, hourly gate,
webhook (`webhookOk`); on success the records are updated.  Returns the
new state and whether a notification was emitted. -/
def sendArbitrageAlert (cd : ℤ) (maxPerHour : ℕ) (s : NotifState) (now : ℤ)
    (key : String) (shouldSend webhookOk : Bool) : NotifState × Bool :=
  if !shouldSend then (s, false)
  else if cooldownActive cd s now key then (s, false)
  else if hourlyLimitReached maxPerHour s now then (s, false)
  else if webhookOk then
    ({ lastArb := dictSet s.lastArb key now, hourly := s.hourly ++ [now] }, true)
  else (s, false)

/-- `NotificationManager.clear_old_records`: drop cooldown records older
than one hour (`manager.py:221-227`). -/
def clearOldRecords (s : NotifState) (now : ℤ) : NotifState :=
  { lastArb := s.lastArb.filter fun p => decide (now - 3600 < p.2)
    hourly := s.hourly }

/-- An event of a manager run: an arbitrage-alert attempt or a cleanup. -/
inductive NotifEvent where
  | send (now : ℤ) (key : String) (shouldSend webhookOk : Bool)
  | clear (now : ℤ)
  deriving Repr, DecidableEq

def eventTime : NotifEvent → ℤ
  | .send now _ _ _ => now
  | .clear now => now

/-- Run a sequence of events, returning the final state and the log of
successful emissions `(route key, emit time)` in order. -/
def runEvents (cd : ℤ) (maxPerHour : ℕ) :
    NotifState → List NotifEvent → NotifState × List (String × ℤ)
  | s, [] => (s, [])
  | s, .send now key shouldSend webhookOk :: es =>
    let step := sendArbitrageAlert cd maxPerHour s now key shouldSend webhookOk
    let rest := runEvents cd maxPerHour step.1 es
    (rest.1, (if step.2 then [(key, now)] else []) ++ rest.2)
  | s, .clear now :: es => runEvents cd maxPerHour (clearOldRecords s now) es

/-- The emission log of a run from the initial (empty) manager state. -/
def emittedLog (cd : ℤ) (maxPerHour : ℕ) (events : List NotifEvent) :
    List (String × ℤ) :=
  (runEvents cd maxPerHour ⟨[], []⟩ events).2

/-! ## Quiet hours

Embedding of `NotificationConfig.is_quiet_hours`
(`notifications/config.py:104-125`).  Times are the `"HH:MM"` strings the
source compares lexicographically; the current JST wall-clock string is a
parameter. -/

structure QuietHoursConfig where
  enabled : Bool
  startTime : String
  endTime : String
  deriving Repr, DecidableEq

/-- Python string `<=`: lexicographic comparison of code points. -/
def charListLe : List Char → List Char → Bool
  | [], _ => true
  | _ :: _, [] => false
  | a :: as, b :: bs =>
    if a.toNat < b.toNat then true
    else if b.toNat < a.toNat then false
    else charListLe as bs

/-- Python string `<=` on the two strings' characters. -/
def strLe (a b : String) : Bool :=
  charListLe a.data b.data

def isQuietHours (q : QuietHoursConfig) (currentTime : String) : Bool :=
  if !q.enabled then false
  else if strLe q.startTime q.endTime then
    strLe q.startTime currentTime && strLe currentTime q.endTime
  else
    strLe q.startTime currentTime || strLe currentTime q.endTime

/-! ## Concrete instances used by witnesses and counterexamples -/

/-- A bitFlyer ticker response whose best ask (90) is below its best bid
(100): per the spec, a `MalformedQuote` that must never be persisted. -/
def malformedResponse : BitflyerTicker :=
  { tsParsed := 0, bestBid := 100, bestAsk := 90, bestBidSize := 1,
    bestAskSize := 1, ltp := 95, volume := 10 }

/-- A healthy quote: venue A of the spec's clear-opportunity scenario. -/
def quoteA : Quote := { bid := 9990000, ask := 10000000, bidSize := 1, askSize := 1 }

/-- A healthy quote: venue B of the spec's clear-opportunity scenario. -/
def quoteB : Quote := { bid := 10050000, ask := 10060000, bidSize := 1, askSize := 1 }

/-- A healthy quote for the C1 counterexample. -/
def quoteHealthy : Quote := { bid := 99, ask := 100, bidSize := 1, askSize := 1 }

/-- A crossed (unhealthy) book: bid 101 above ask 90. -/
def quoteCrossed : Quote := { bid := 101, ask := 90, bidSize := 1, askSize := 1 }

/-- Advanced-analyzer entry for venue gmo. -/
def exGmo : ExInfo :=
  { exchangeCode := "gmo", exchangeName := "GMO", bid := 9990000, ask := 10000000, ts := 0 }

/-- Advanced-analyzer entry for venue bitbank. -/
def exBitbank : ExInfo :=
  { exchangeCode := "bitbank", exchangeName := "bitbank", bid := 10050000,
    ask := 10060000, ts := 0 }

/-- A stale tick (600 s old at `now = 600`) for exchange A. -/
def tickStaleA : Tick :=
  { exchange := "A", ts := 0, bid := 9990000, ask := 10000000, bidSize := 1, askSize := 1 }

/-- A fresh tick for exchange B. -/
def tickFreshB : Tick :=
  { exchange := "B", ts := 590, bid := 10050000, ask := 10060000, bidSize := 1, askSize := 1 }

/-- An older fresh tick for exchange B. -/
def tickOlderB : Tick :=
  { exchange := "B", ts := 580, bid := 10000000, ask := 10010000, bidSize := 1, askSize := 1 }

/-! ## Association-list lemmas -/

@[simp]
theorem alookup_nil {α : Type} (k : String) : alookup k ([] : List (String × α)) = none :=
  rfl

@[simp]
theorem alookup_cons {α : Type} (k : String) (p : String × α) (ps : List (String × α)) :
    alookup k (p :: ps) = if p.1 = k then some p.2 else alookup k ps :=
  rfl

theorem alookup_eq_some_mem {α : Type} {k : String} {v : α} :
    ∀ {m : List (String × α)}, alookup k m = some v → (k, v) ∈ m := by
  intro m
  induction m with
  | nil => intro h; simp at h
  | cons p ps ih =>
    intro h
    rcases p with ⟨pk, pv⟩
    simp only [alookup_cons] at h
    by_cases hk : pk = k
    · simp only [hk, if_pos] at h
      injection h with h
      subst hk h
      exact List.mem_cons_self _ _
    · simp only [hk, if_neg, if_false] at h
      exact List.mem_cons_of_mem _ (ih h)

theorem alookup_eq_none_iff {α : Type} (k : String) :
    ∀ (m : List (String × α)), alookup k m = none ↔ k ∉ m.map Prod.fst := by
  intro m
  induction m with
  | nil => simp
  | cons p ps ih =>
    by_cases hk : p.1 = k
    · simp [hk]
    · have hk2 : ¬k = p.1 := fun hh => hk hh.symm
      simp [hk, ih, hk2]

theorem alookup_append {α : Type} (k : String) (l1 l2 : List (String × α)) :
    alookup k (l1 ++ l2) =
      match alookup k l1 with
      | some v => some v
      | none => alookup k l2 := by
  induction l1 with
  | nil => simp
  | cons p ps ih =>
    by_cases hk : p.1 = k
    · simp [hk]
    · simp [hk, ih]

theorem alookup_map_replace {α : Type} (k : String) (v : α) :
    ∀ (m : List (String × α)), alookup k m ≠ none →
      alookup k (m.map fun p => if p.1 = k then (k, v) else p) = some v := by
  intro m
  induction m with
  | nil => simp
  | cons p ps ih =>
    intro h
    by_cases hk : p.1 = k
    · simp [hk]
    · simp only [alookup_cons, hk, if_false, if_neg] at h
      simp only [List.map_cons, if_neg hk, alookup_cons, hk, if_false, if_neg]
      exact ih h

theorem alookup_map_replace_ne {α : Type} (k : String) (v : α) {k2 : String}
    (h : k2 ≠ k) :
    ∀ (m : List (String × α)),
      alookup k2 (m.map fun p => if p.1 = k then (k, v) else p) = alookup k2 m := by
  intro m
  induction m with
  | nil => simp
  | cons p ps ih =>
    by_cases hk : p.1 = k
    · have hp2 : p.1 ≠ k2 := by rw [hk]; exact fun hh => h hh.symm
      have hne : k ≠ k2 := fun hh => h hh.symm
      simp [hk, hp2, hne, ih]
    · by_cases hp2 : p.1 = k2
      · rw [List.map_cons, if_neg hk, alookup_cons, alookup_cons, if_pos hp2, if_pos hp2]
      · rw [List.map_cons, if_neg hk, alookup_cons, alookup_cons, if_neg hp2, if_neg hp2]
        exact ih

theorem alookup_dictSet_self {α : Type} (m : List (String × α)) (k : String) (v : α) :
    alookup k (dictSet m k v) = some v := by
  unfold dictSet
  cases hl : alookup k m with
  | none =>
    rw [alookup_append, hl]
    simp
  | some w =>
    exact alookup_map_replace k v m (by rw [hl]; exact fun h => Option.noConfusion h)

theorem alookup_dictSet_ne {α : Type} (m : List (String × α)) (k : String) (v : α)
    {k2 : String} (h : k2 ≠ k) : alookup k2 (dictSet m k v) = alookup k2 m := by
  unfold dictSet
  cases hl : alookup k m with
  | none =>
    rw [alookup_append]
    have hkk : ¬k = k2 := fun hh => h hh.symm
    cases h2 : alookup k2 m with
    | none => simp [hkk]
    | some w => simp
  | some w => exact alookup_map_replace_ne k v h m

theorem mem_dictSet {α : Type} {m : List (String × α)} {k : String} {v : α}
    {p : String × α} (h : p ∈ dictSet m k v) : p ∈ m ∨ p = (k, v) := by
  unfold dictSet at h
  cases hl : alookup k m with
  | none =>
    rw [hl] at h
    rcases List.mem_append.mp h with h1 | h1
    · exact Or.inl h1
    · right; simpa using h1
  | some w =>
    rw [hl] at h
    rcases List.mem_map.mp h with ⟨q, hq, hq2⟩
    by_cases hk : q.1 = k
    · right; rw [← hq2, if_pos hk]
    · left; rw [← hq2, if_neg hk]; exact hq

theorem keysNodup_dictSet {α : Type} {m : List (String × α)} (k : String) (v : α)
    (h : (m.map Prod.fst).Nodup) : ((dictSet m k v).map Prod.fst).Nodup := by
  unfold dictSet
  cases hl : alookup k m with
  | none =>
    rw [List.map_append, List.nodup_append]
    refine ⟨h, by simp, ?_⟩
    intro a ha hb
    simp only [List.map_cons, List.map_nil, List.mem_singleton] at hb
    rw [hb] at ha
    exact (alookup_eq_none_iff k m).mp hl ha
  | some w =>
    have hkeys : ((m.map fun p => if p.1 = k then (k, v) else p).map Prod.fst)
        = m.map Prod.fst := by
      rw [List.map_map]
      apply List.map_congr_left
      intro p _
      by_cases hk : p.1 = k
      · simp [hk]
      · simp [hk]
    rw [hkeys]
    exact h

/-! ## Detector lemmas -/

theorem mem_insertDesc {o x : Opportunity} {l : List Opportunity} :
    x ∈ insertDesc o l ↔ x = o ∨ x ∈ l := by
  induction l with
  | nil => simp [insertDesc]
  | cons y ys ih =>
    rw [insertDesc]
    by_cases hc : y.estimatedProfitPct < o.estimatedProfitPct
    · simp [hc]
    · simp only [hc, if_false, if_neg, List.mem_cons, ih]
      tauto

theorem mem_sortDesc {x : Opportunity} {l : List Opportunity} :
    x ∈ sortDesc l ↔ x ∈ l := by
  induction l with
  | nil => simp [sortDesc]
  | cons y ys ih =>
    rw [sortDesc, List.foldr_cons]
    rw [show List.foldr insertDesc [] ys = sortDesc ys from rfl]
    rw [mem_insertDesc, ih]
    simp

theorem mem_detectOpportunities {cfg : DetectorConfig} {prices : List (String × Quote)}
    {sym : String} {o : Opportunity} :
    o ∈ detectOpportunities cfg prices sym ↔
      ∃ p ∈ pairCombos prices, checkPair cfg sym p.1 p.2 = some o := by
  rw [detectOpportunities, mem_sortDesc, List.mem_filterMap]

theorem checkPair_some_facts {cfg : DetectorConfig} {sym : String}
    {e1 e2 : String × Quote} {o : Opportunity}
    (h : checkPair cfg sym e1 e2 = some o) :
    ((o.buyExchange = e1.1 ∧ o.sellExchange = e2.1) ∨
      (o.buyExchange = e2.1 ∧ o.sellExchange = e1.1))
      ∧ 0 < o.buyPrice
      ∧ cfg.minProfitThreshold * 100 ≤ o.priceDiffPct
      ∧ 0 < o.estimatedProfitPct
      ∧ o.priceDiffPct = (o.sellPrice - o.buyPrice) / o.buyPrice * 100 := by
  simp only [checkPair] at h
  split_ifs at h with hg hd h0 hth hzv hp h0b hthb hzvb hpb
  · injection h with h
    subst h
    push_neg at hg
    exact ⟨Or.inl ⟨rfl, rfl⟩, hg.1, not_lt.mp hth, hp, rfl⟩
  · injection h with h
    subst h
    push_neg at hg
    exact ⟨Or.inr ⟨rfl, rfl⟩, hg.2.2.1, not_lt.mp hthb, hpb, rfl⟩

theorem mem_pairCombos_both {x y : α} :
    ∀ {l : List α}, (x, y) ∈ pairCombos l → x ∈ l ∧ y ∈ l := by
  intro l
  induction l with
  | nil => intro h; simp [pairCombos] at h
  | cons a as ih =>
    intro h
    rw [pairCombos] at h
    rcases List.mem_append.mp h with h1 | h1
    · rcases List.mem_map.mp h1 with ⟨b, hb, hxy⟩
      injection hxy with hx hy
      subst hx hy
      exact ⟨List.mem_cons_self _ _, List.mem_cons_of_mem _ hb⟩
    · exact ⟨List.mem_cons_of_mem _ (ih h1).1, List.mem_cons_of_mem _ (ih h1).2⟩

theorem pairCombos_keys_ne {β : Type} {l : List (String × β)}
    (hnd : (l.map Prod.fst).Nodup) :
    ∀ {x y : String × β}, (x, y) ∈ pairCombos l → x.1 ≠ y.1 := by
  induction l with
  | nil => intro x y h; simp [pairCombos] at h
  | cons a as ih =>
    intro x y h
    rw [pairCombos] at h
    simp only [List.map_cons, List.nodup_cons] at hnd
    rcases List.mem_append.mp h with h1 | h1
    · rcases List.mem_map.mp h1 with ⟨b, hb, hxy⟩
      injection hxy with hx hy
      subst hx hy
      intro he
      exact hnd.1 (he ▸ List.mem_map_of_mem Prod.fst hb)
    · exact ih hnd.2 h1

theorem pairCombos_complete {l : List α} :
    ∀ (i j : Fin l.length), i < j → (l.get i, l.get j) ∈ pairCombos l := by
  induction l with
  | nil => intro i; exact absurd i.2 (by simp)
  | cons a as ih =>
    intro ⟨iv, hi⟩ ⟨jv, hj⟩ hij
    rw [pairCombos]
    simp only [Fin.mk_lt_mk] at hij
    match iv, jv with
    | 0, 0 => omega
    | 0, jv2 + 1 =>
      apply List.mem_append.mpr
      left
      have hj2 : jv2 < as.length := by simpa using hj
      exact List.mem_map.mpr ⟨as.get ⟨jv2, hj2⟩, List.get_mem as jv2 hj2, rfl⟩
    | iv2 + 1, 0 => omega
    | iv2 + 1, jv2 + 1 =>
      apply List.mem_append.mpr
      right
      exact ih ⟨iv2, by simpa using hi⟩ ⟨jv2, by simpa using hj⟩
        (Fin.mk_lt_mk.mpr (by omega))

theorem advProfitCheck_some_facts {minTh : ℚ} {ps : String} {t : String}
    {buyE sellE : ExInfo} {o : AdvOpportunity}
    (h : advProfitCheck minTh ps t buyE sellE = some o) :
    o.buyExchangeCode = buyE.exchangeCode ∧ o.sellExchangeCode = sellE.exchangeCode
      ∧ o.buyPrice = buyE.ask ∧ o.sellPrice = sellE.bid
      ∧ (if t = "cross_rate" then (1 : ℚ)/1000
          else if t = "triangle" then (2 : ℚ)/1000 else minTh) * 100 ≤
          o.profitPercentage := by
  simp only [advProfitCheck] at h
  set T : ℚ := (if t = "cross_rate" then (1 : ℚ)/1000
      else if t = "triangle" then (2 : ℚ)/1000 else minTh) with hT
  split at h
  next hlt => exact Option.noConfusion h
  next hlt =>
    injection h with h
    subst h
    exact ⟨rfl, rfl, rfl, rfl, not_lt.mp hlt⟩

theorem checkArb_some_facts {minTh : ℚ} {ps : String} {e1 e2 : ExInfo} {t : String}
    {o : AdvOpportunity} (h : checkArbitrageOpportunity minTh ps e1 e2 t = some o) :
    ((o.buyExchangeCode = e1.exchangeCode ∧ o.sellExchangeCode = e2.exchangeCode) ∨
      (o.buyExchangeCode = e2.exchangeCode ∧ o.sellExchangeCode = e1.exchangeCode))
      ∧ o.buyPrice < o.sellPrice
      ∧ (if t = "cross_rate" then (1 : ℚ)/1000
          else if t = "triangle" then (2 : ℚ)/1000 else minTh) * 100 ≤
          o.profitPercentage := by
  rw [checkArbitrageOpportunity] at h
  split_ifs at h with hd1 hd2
  · obtain ⟨hb, hs, hbp, hsp, hth⟩ := advProfitCheck_some_facts h
    exact ⟨Or.inl ⟨hb, hs⟩, by rw [hbp, hsp]; exact hd1, hth⟩
  · obtain ⟨hb, hs, hbp, hsp, hth⟩ := advProfitCheck_some_facts h
    exact ⟨Or.inr ⟨hb, hs⟩, by rw [hbp, hsp]; exact hd2, hth⟩

/-! ## C1 — min/max venue assignment and emission condition -/

theorem specBuyEntry_ask (a b : String) (qa qb : Quote) :
    (specBuyEntry a qa b qb).2.ask = min qa.ask qb.ask := by
  rw [specBuyEntry]
  by_cases h : qa.ask ≤ qb.ask
  · rw [if_pos h, min_eq_left h]
  · rw [if_neg h, min_eq_right (le_of_not_le h)]

theorem specSellEntry_bid (a b : String) (qa qb : Quote) :
    (specSellEntry a qa b qb).2.bid = max qa.bid qb.bid := by
  rw [specSellEntry]
  by_cases h : qb.bid ≤ qa.bid
  · rw [if_pos h, max_eq_left h]
  · rw [if_neg h, max_eq_right (le_of_not_le h)]

theorem specOpportunity_fields (cfg : DetectorConfig) (sym : String)
    (a b : String) (qa qb : Quote) :
    (specOpportunity cfg sym a qa b qb).buyPrice = min qa.ask qb.ask
      ∧ (specOpportunity cfg sym a qa b qb).sellPrice = max qa.bid qb.bid
      ∧ (specOpportunity cfg sym a qa b qb).priceDiffPct = specPriceDiffPct qa qb
      ∧ (specOpportunity cfg sym a qa b qb).estimatedProfitPct
          = specEstimatedProfitPct cfg sym a qa b qb := by
  refine ⟨specBuyEntry_ask a b qa qb, specSellEntry_bid a b qa qb, ?_, rfl⟩
  show ((specSellEntry a qa b qb).2.bid - (specBuyEntry a qa b qb).2.ask)
      / (specBuyEntry a qa b qb).2.ask * 100 = specPriceDiffPct qa qb
  rw [specBuyEntry_ask, specSellEntry_bid, specPriceDiffPct, specBuyPrice, specSellPrice]

theorem specBuyEntry_fst (a b : String) (qa qb : Quote) :
    (specBuyEntry a qa b qb).1 = a ∨ (specBuyEntry a qa b qb).1 = b := by
  rw [specBuyEntry]
  by_cases h : qa.ask ≤ qb.ask
  · left; rw [if_pos h]
  · right; rw [if_neg h]

theorem specSellEntry_fst (a b : String) (qa qb : Quote) :
    (specSellEntry a qa b qb).1 = a ∨ (specSellEntry a qa b qb).1 = b := by
  rw [specSellEntry]
  by_cases h : qb.bid ≤ qa.bid
  · left; rw [if_pos h]
  · right; rw [if_neg h]

theorem nodup_keys_inj {β : Type} {l : List (String × β)}
    (hnd : (l.map Prod.fst).Nodup) :
    ∀ {x y : String × β}, x ∈ l → y ∈ l → x.1 = y.1 → x = y := by
  induction l with
  | nil => intro x y hx _ _; simp at hx
  | cons p ps ih =>
    intro x y hx hy he
    simp only [List.map_cons, List.nodup_cons] at hnd
    rcases List.mem_cons.mp hx with h1 | h1 <;> rcases List.mem_cons.mp hy with h2 | h2
    · rw [h1, h2]
    · exfalso
      have hm : y.1 ∈ ps.map Prod.fst := List.mem_map_of_mem Prod.fst h2
      rw [← he, h1] at hm
      exact hnd.1 hm
    · exfalso
      have hm : x.1 ∈ ps.map Prod.fst := List.mem_map_of_mem Prod.fst h1
      rw [he, h2] at hm
      exact hnd.1 hm
    · exact ih hnd.2 h1 h2 he

theorem none_ite_none {c1 : Prop} [Decidable c1] {c2 : Prop} [Decidable c2]
    (x : Opportunity) :
    (if c1 then (none : Option Opportunity) else if c2 then some x else none) =
      (if ¬c1 ∧ c2 then some x else none) := by
  by_cases h1 : c1 <;> by_cases h2 : c2 <;> simp [h1, h2]

theorem checkPair_minmax (cfg : DetectorConfig) (sym : String)
    (a b : String) (qa qb : Quote)
    (hth : 0 < cfg.minProfitThreshold)
    (hcap : 0 < cfg.maxPositionSize (baseOf sym))
    (ha1 : 0 < qa.bid) (ha2 : qa.bid ≤ qa.ask) (ha3 : 0 < qa.bidSize) (ha4 : 0 < qa.askSize)
    (hb1 : 0 < qb.bid) (hb2 : qb.bid ≤ qb.ask) (hb3 : 0 < qb.bidSize) (hb4 : 0 < qb.askSize) :
    checkPair cfg sym (a, qa) (b, qb) =
      if cfg.minProfitThreshold * 100 ≤ specPriceDiffPct qa qb
          ∧ 0 < specEstimatedProfitPct cfg sym a qa b qb
        then some (specOpportunity cfg sym a qa b qb) else none := by
  have haa : 0 < qa.ask := lt_of_lt_of_le ha1 ha2
  have hba : 0 < qb.ask := lt_of_lt_of_le hb1 hb2
  by_cases hd1 : qa.ask < qb.bid
  · -- direction 1: buy at A's ask, sell at B's bid
    have hminA : qa.ask ≤ qb.ask := le_trans (le_of_lt hd1) hb2
    have hmaxB : qa.bid < qb.bid := lt_of_le_of_lt ha2 hd1
    have hBE : specBuyEntry a qa b qb = (a, qa) := by
      rw [specBuyEntry, if_pos hminA]
    have hSE : specSellEntry a qa b qb = (b, qb) := by
      rw [specSellEntry, if_neg (not_le.mpr hmaxB)]
    have hmin : min qa.ask qb.ask = qa.ask := min_eq_left hminA
    have hmax : max qa.bid qb.bid = qb.bid := max_eq_right (le_of_lt hmaxB)
    have hmv : 0 < min (min qa.askSize qb.bidSize) (cfg.maxPositionSize (baseOf sym)) :=
      lt_min (lt_min ha4 hb3) hcap
    simp only [checkPair, specEstimatedProfitPct, specOpportunity, specPriceDiffPct,
      specBuyPrice, specSellPrice, hBE, hSE, hmin, hmax,
      haa.not_le, hba.not_le, ha1.not_le, hb1.not_le, hd1,
      haa.ne', hmv.ne', if_true, if_false, or_self, false_or, or_false,
      gt_iff_lt, ite_true, ite_false, not_false_iff]
    rw [none_ite_none]
    rw [if_congr (by rw [not_lt]) rfl rfl]
  · by_cases hd2 : qb.ask < qa.bid
    · -- direction 2: buy at B's ask, sell at A's bid
      have hminB : qb.ask < qa.ask := lt_of_lt_of_le hd2 ha2
      have hmaxA : qb.bid ≤ qa.bid := le_trans hb2 (le_of_lt hd2)
      have hBE : specBuyEntry a qa b qb = (b, qb) := by
        rw [specBuyEntry, if_neg (not_le.mpr hminB)]
      have hSE : specSellEntry a qa b qb = (a, qa) := by
        rw [specSellEntry, if_pos hmaxA]
      have hmin : min qa.ask qb.ask = qb.ask := min_eq_right (le_of_lt hminB)
      have hmax : max qa.bid qb.bid = qa.bid := max_eq_left hmaxA
      have hmv : 0 < min (min qb.askSize qa.bidSize) (cfg.maxPositionSize (baseOf sym)) :=
        lt_min (lt_min hb4 ha3) hcap
      simp only [checkPair, specEstimatedProfitPct, specOpportunity, specPriceDiffPct,
        specBuyPrice, specSellPrice, hBE, hSE, hmin, hmax,
        haa.not_le, hba.not_le, ha1.not_le, hb1.not_le, hd1,
        hba.ne', hmv.ne', if_true, if_false, or_self, false_or, or_false,
        gt_iff_lt, ite_true, ite_false, not_false_iff]
      rw [none_ite_none]
      rw [if_congr (by rw [not_lt]) rfl rfl]
    · -- no profitable direction: both sides none
      push_neg at hd1 hd2
      have hm0 : 0 < min qa.ask qb.ask := lt_min haa hba
      have hMm : max qa.bid qb.bid ≤ min qa.ask qb.ask :=
        max_le (le_min ha2 hd2) (le_min hd1 hb2)
      have hspecd : specPriceDiffPct qa qb ≤ 0 := by
        rw [specPriceDiffPct]
        have h1 : (specSellPrice qa qb - specBuyPrice qa qb) / specBuyPrice qa qb ≤ 0 :=
          div_nonpos_iff.mpr (Or.inr ⟨by
            rw [specSellPrice, specBuyPrice]; linarith, le_of_lt hm0⟩)
        linarith
      have hcondF : ¬(cfg.minProfitThreshold * 100 ≤ specPriceDiffPct qa qb
          ∧ 0 < specEstimatedProfitPct cfg sym a qa b qb) := by
        rintro ⟨h1, -⟩
        nlinarith
      rw [if_neg hcondF]
      -- the code also emits nothing: the chosen direction has a
      -- non-positive price difference, below the positive threshold
      have hdiffle : (qa.bid - qb.ask) / qb.ask * 100 < cfg.minProfitThreshold * 100 := by
        have h1 : (qa.bid - qb.ask) / qb.ask ≤ 0 :=
          div_nonpos_iff.mpr (Or.inr ⟨by linarith, le_of_lt hba⟩)
        nlinarith
      simp only [checkPair, haa.not_le, hba.not_le, ha1.not_le, hb1.not_le,
        if_true, if_false, or_self, false_or, or_false, gt_iff_lt, ite_true,
        ite_false, not_false_iff, not_lt.mpr hd1, hba.ne']
      rw [if_pos hdiffle]


theorem specPriceDiffPct_symm (qa qb : Quote) :
    specPriceDiffPct qb qa = specPriceDiffPct qa qb := by
  rw [specPriceDiffPct, specPriceDiffPct, specBuyPrice, specBuyPrice,
    specSellPrice, specSellPrice, min_comm, max_comm]

theorem spec_cond_gt {th : ℚ} {qa qb : Quote} (hth : 0 < th)
    (hm0 : 0 < specBuyPrice qa qb)
    (hcond : th * 100 ≤ specPriceDiffPct qa qb) :
    specBuyPrice qa qb < specSellPrice qa qb := by
  by_contra hle
  push_neg at hle
  have h1 : (specSellPrice qa qb - specBuyPrice qa qb) / specBuyPrice qa qb ≤ 0 :=
    div_nonpos_iff.mpr (Or.inr ⟨by linarith, le_of_lt hm0⟩)
  have h2 : specPriceDiffPct qa qb ≤ 0 := by
    rw [specPriceDiffPct]
    linarith
  nlinarith

theorem specEntries_symm {a b : String} {qa qb : Quote}
    (ha2 : qa.bid ≤ qa.ask) (hb2 : qb.bid ≤ qb.ask)
    (hgt : specBuyPrice qa qb < specSellPrice qa qb) :
    specBuyEntry b qb a qa = specBuyEntry a qa b qb
      ∧ specSellEntry b qb a qa = specSellEntry a qa b qb := by
  have hasks : qa.ask ≠ qb.ask := by
    intro he
    have hub : max qa.bid qb.bid ≤ min qa.ask qb.ask := by
      apply max_le
      · exact le_min ha2 (by rw [← he]; exact ha2)
      · exact le_min (by rw [he]; exact hb2) hb2
    rw [specBuyPrice, specSellPrice] at hgt
    exact absurd hgt (not_lt.mpr hub)
  have hbids : qa.bid ≠ qb.bid := by
    intro he
    have hub : max qa.bid qb.bid ≤ min qa.ask qb.ask := by
      apply max_le
      · exact le_min ha2 (by rw [he]; exact hb2)
      · exact le_min (by rw [← he]; exact ha2) hb2
    rw [specBuyPrice, specSellPrice] at hgt
    exact absurd hgt (not_lt.mpr hub)
  constructor
  · rw [specBuyEntry, specBuyEntry]
    rcases lt_or_gt_of_ne hasks with h | h
    · rw [if_neg (not_le.mpr h), if_pos (le_of_lt h)]
    · rw [if_pos (le_of_lt h), if_neg (not_le.mpr h)]
  · rw [specSellEntry, specSellEntry]
    rcases lt_or_gt_of_ne hbids with h | h
    · rw [if_neg (not_le.mpr h), if_pos (le_of_lt h)]
    · rw [if_pos (le_of_lt h), if_neg (not_le.mpr h)]

theorem specOpportunity_symm (cfg : DetectorConfig) (sym : String)
    {a b : String} {qa qb : Quote}
    (ha2 : qa.bid ≤ qa.ask) (hb2 : qb.bid ≤ qb.ask)
    (hgt : specBuyPrice qa qb < specSellPrice qa qb) :
    specOpportunity cfg sym b qb a qa = specOpportunity cfg sym a qa b qb := by
  obtain ⟨h1, h2⟩ := specEntries_symm ha2 hb2 hgt
  rw [specOpportunity, specOpportunity, h1, h2]

theorem ite_some_eq {c : Prop} [Decidable c] {x o : Opportunity}
    (h : (if c then some x else none) = some o) : c ∧ o = x := by
  by_cases hc : c
  · rw [if_pos hc] at h
    injection h with h
    exact ⟨hc, h.symm⟩
  · rw [if_neg hc] at h
    exact absurd h (by simp)


theorem detect_pair_emission
    (cfg : DetectorConfig) (prices : List (String × Quote)) (sym : String)
    (hnd : (prices.map Prod.fst).Nodup)
    (hq : ∀ p ∈ prices, 0 < p.2.bid ∧ p.2.bid ≤ p.2.ask ∧ 0 < p.2.bidSize ∧ 0 < p.2.askSize)
    (hcap : 0 < cfg.maxPositionSize (baseOf sym))
    (hth : 0 < cfg.minProfitThreshold)
    {a b : String} {qa qb : Quote}
    (hpair : ((a, qa), (b, qb)) ∈ pairCombos prices)
    {o : Opportunity} (ho : o ∈ detectOpportunities cfg prices sym)
    (hbuyv : o.buyExchange = a ∨ o.buyExchange = b)
    (hsellv : o.sellExchange = a ∨ o.sellExchange = b) :
    o = specOpportunity cfg sym a qa b qb
      ∧ cfg.minProfitThreshold * 100 ≤ specPriceDiffPct qa qb
      ∧ 0 < specEstimatedProfitPct cfg sym a qa b qb := by
  have hamem := (mem_pairCombos_both hpair).1
  have hbmem := (mem_pairCombos_both hpair).2
  obtain ⟨ha1, ha2, ha3, ha4⟩ := hq (a, qa) hamem
  obtain ⟨hb1, hb2, hb3, hb4⟩ := hq (b, qb) hbmem
  have hEq := checkPair_minmax cfg sym a b qa qb hth hcap ha1 ha2 ha3 ha4 hb1 hb2 hb3 hb4
  have hEqR := checkPair_minmax cfg sym b a qb qa hth hcap hb1 hb2 hb3 hb4 ha1 ha2 ha3 ha4
  have hm0 : 0 < specBuyPrice qa qb := by
    rw [specBuyPrice]
    exact lt_min (lt_of_lt_of_le ha1 ha2) (lt_of_lt_of_le hb1 hb2)
  obtain ⟨⟨x, y⟩, hxy, hcp⟩ := mem_detectOpportunities.mp ho
  obtain ⟨hv, -, -, -, -⟩ := checkPair_some_facts hcp
  have hxmem := (mem_pairCombos_both hxy).1
  have hymem := (mem_pairCombos_both hxy).2
  have hxyne : x.1 ≠ y.1 := pairCombos_keys_ne hnd hxy
  have hkeyA : ∀ z : String × Quote, z ∈ prices → z.1 = a → z = (a, qa) := by
    intro z hz he
    exact nodup_keys_inj hnd hz hamem he
  have hkeyB : ∀ z : String × Quote, z ∈ prices → z.1 = b → z = (b, qb) := by
    intro z hz he
    exact nodup_keys_inj hnd hz hbmem he
  have hxy2 : (x = (a, qa) ∧ y = (b, qb)) ∨ (x = (b, qb) ∧ y = (a, qa)) := by
    rcases hv with ⟨hbv, hsv⟩ | ⟨hbv, hsv⟩
    · rcases hbuyv with h1 | h1
      · have hx : x = (a, qa) := hkeyA x hxmem (by rw [← hbv, h1])
        rcases hsellv with h2 | h2
        · exfalso
          apply hxyne
          rw [hx, ← hsv, h2]
        · exact Or.inl ⟨hx, hkeyB y hymem (by rw [← hsv, h2])⟩
      · have hx : x = (b, qb) := hkeyB x hxmem (by rw [← hbv, h1])
        rcases hsellv with h2 | h2
        · exact Or.inr ⟨hx, hkeyA y hymem (by rw [← hsv, h2])⟩
        · exfalso
          apply hxyne
          rw [hx, ← hsv, h2]
    · rcases hbuyv with h1 | h1
      · have hy : y = (a, qa) := hkeyA y hymem (by rw [← hbv, h1])
        rcases hsellv with h2 | h2
        · exfalso
          apply hxyne
          rw [hy, ← hsv, h2]
        · exact Or.inr ⟨hkeyB x hxmem (by rw [← hsv, h2]), hy⟩
      · have hy : y = (b, qb) := hkeyB y hymem (by rw [← hbv, h1])
        rcases hsellv with h2 | h2
        · exact Or.inl ⟨hkeyA x hxmem (by rw [← hsv, h2]), hy⟩
        · exfalso
          apply hxyne
          rw [hy, ← hsv, h2]
  rcases hxy2 with ⟨hx, hy⟩ | ⟨hx, hy⟩
  · rw [hx, hy] at hcp
    rw [hEq] at hcp
    obtain ⟨hc, ho2⟩ := ite_some_eq hcp
    exact ⟨ho2, hc.1, hc.2⟩
  · rw [hx, hy] at hcp
    rw [hEqR] at hcp
    obtain ⟨hc, ho2⟩ := ite_some_eq hcp
    have hd1 : cfg.minProfitThreshold * 100 ≤ specPriceDiffPct qa qb := by
      rw [← specPriceDiffPct_symm]
      exact hc.1
    have hgt : specBuyPrice qa qb < specSellPrice qa qb :=
      spec_cond_gt hth hm0 hd1
    have hOp : specOpportunity cfg sym b qb a qa = specOpportunity cfg sym a qa b qb :=
      specOpportunity_symm cfg sym ha2 hb2 hgt
    have hEst : specEstimatedProfitPct cfg sym b qb a qa
        = specEstimatedProfitPct cfg sym a qa b qb := by
      rw [specEstimatedProfitPct, specEstimatedProfitPct, hOp]
    refine ⟨by rw [ho2, hOp], hd1, ?_⟩
    rw [← hEst]
    exact hc.2


/-- C1 (amended): for a prices dict with quotes from two or more distinct
exchanges whose quotes are healthy (`0 < bid ≤ ask`, positive sizes, and
a positive position cap and threshold — the defaults), every unordered
pair of distinct exchanges is considered exactly once; a candidate for
the exchange pair (A, B) is emitted iff
`price_diff_pct = (sell - buy)/buy × 100 ≥ min_profit_threshold × 100`
and `estimated_profit_pct > 0`, where `buy = min(A.ask, B.ask)` and
`sell = max(A.bid, B.bid)` with venues assigned accordingly; and every
emitted candidate carries exactly those prices and figures. -/
theorem C1_direct_minmax
    (cfg : DetectorConfig) (prices : List (String × Quote)) (sym : String)
    (hnd : (prices.map Prod.fst).Nodup)
    (hq : ∀ p ∈ prices, 0 < p.2.bid ∧ p.2.bid ≤ p.2.ask ∧ 0 < p.2.bidSize ∧ 0 < p.2.askSize)
    (hcap : 0 < cfg.maxPositionSize (baseOf sym))
    (hth : 0 < cfg.minProfitThreshold) :
    (∀ i j : Fin prices.length, i < j → (prices.get i, prices.get j) ∈ pairCombos prices)
      ∧ (∀ (a b : String) (qa qb : Quote), ((a, qa), (b, qb)) ∈ pairCombos prices →
          ((∃ o ∈ detectOpportunities cfg prices sym,
              (o.buyExchange = a ∨ o.buyExchange = b)
                ∧ (o.sellExchange = a ∨ o.sellExchange = b)) ↔
            (cfg.minProfitThreshold * 100 ≤ specPriceDiffPct qa qb
              ∧ 0 < specEstimatedProfitPct cfg sym a qa b qb)))
      ∧ (∀ (a b : String) (qa qb : Quote), ((a, qa), (b, qb)) ∈ pairCombos prices →
          ∀ o ∈ detectOpportunities cfg prices sym,
            (o.buyExchange = a ∨ o.buyExchange = b) →
            (o.sellExchange = a ∨ o.sellExchange = b) →
            o.buyPrice = min qa.ask qb.ask ∧ o.sellPrice = max qa.bid qb.bid
              ∧ o.priceDiffPct = specPriceDiffPct qa qb
              ∧ o.estimatedProfitPct = specEstimatedProfitPct cfg sym a qa b qb) := by
  refine ⟨fun i j hij => pairCombos_complete i j hij, ?_, ?_⟩
  · intro a b qa qb hpair
    constructor
    · rintro ⟨o, ho, hbv, hsv⟩
      exact (detect_pair_emission cfg prices sym hnd hq hcap hth hpair ho hbv hsv).2
    · intro hcond
      have hamem := (mem_pairCombos_both hpair).1
      have hbmem := (mem_pairCombos_both hpair).2
      obtain ⟨ha1, ha2, ha3, ha4⟩ := hq (a, qa) hamem
      obtain ⟨hb1, hb2, hb3, hb4⟩ := hq (b, qb) hbmem
      have hEq := checkPair_minmax cfg sym a b qa qb hth hcap ha1 ha2 ha3 ha4 hb1 hb2 hb3 hb4
      refine ⟨specOpportunity cfg sym a qa b qb, ?_, ?_, ?_⟩
      · exact mem_detectOpportunities.mpr
          ⟨((a, qa), (b, qb)), hpair, by rw [hEq, if_pos hcond]⟩
      · exact specBuyEntry_fst a b qa qb
      · exact specSellEntry_fst a b qa qb
  · intro a b qa qb hpair o ho hbv hsv
    obtain ⟨ho2, -, -⟩ := detect_pair_emission cfg prices sym hnd hq hcap hth hpair ho hbv hsv
    obtain ⟨hf1, hf2, hf3, hf4⟩ := specOpportunity_fields cfg sym a b qa qb
    rw [ho2]
    exact ⟨hf1, hf2, hf3, hf4⟩

/-- C1 counterexample: with venue A healthy (bid 99, ask 100) and venue B
crossed (bid 101, ask 90), `detect_opportunities` emits one candidate
buying on A at 100 — but the claim's `buy = min(A.ask, B.ask)` is 90 on
B, so the emitted candidate does not carry the claimed assignment. -/
theorem C1_counterexample :
    ((detectOpportunities defaultDetectorConfig
          [("A", quoteHealthy), ("B", quoteCrossed)] "BTC/JPY").map
        fun o => (o.buyExchange, o.buyPrice, o.sellExchange, o.sellPrice))
        = [("A", (100 : ℚ), "B", (101 : ℚ))]
      ∧ min quoteHealthy.ask quoteCrossed.ask = 90 := by
  have hbase : baseOf "BTC/JPY" = "BTC" := rfl
  have h : checkPair defaultDetectorConfig "BTC/JPY" ("A", quoteHealthy) ("B", quoteCrossed)
      = some { buyExchange := "A", sellExchange := "B", pairSymbol := "BTC/JPY",
               buyPrice := 100, sellPrice := 101, priceDiffPct := 1,
               maxVolume := 1/10, buyFees := 0, sellFees := 0, transferFee := 0,
               totalFeesPct := 0, estimatedProfitPct := 1 } := by
    simp only [checkPair, quoteHealthy, quoteCrossed, calculateFees, calculateTransferFee,
      hbase, defaultDetectorConfig]
    norm_num [min_def]
  rw [detectOpportunities]
  rw [show pairCombos [("A", quoteHealthy), ("B", quoteCrossed)]
      = [(("A", quoteHealthy), ("B", quoteCrossed))] from rfl]
  rw [List.filterMap_cons, h]
  norm_num [sortDesc, insertDesc, quoteHealthy, quoteCrossed]

/-- C1 witness: the amended theorem on the spec's clear-opportunity
scenario with the default configuration. -/
theorem C1_direct_minmax_witness :
    (∀ i j : Fin ([("A", quoteA), ("B", quoteB)] : List (String × Quote)).length,
        i < j →
        (([("A", quoteA), ("B", quoteB)] : List (String × Quote)).get i,
          ([("A", quoteA), ("B", quoteB)] : List (String × Quote)).get j)
          ∈ pairCombos [("A", quoteA), ("B", quoteB)])
      ∧ (∀ (a b : String) (qa qb : Quote),
          ((a, qa), (b, qb)) ∈ pairCombos [("A", quoteA), ("B", quoteB)] →
          ((∃ o ∈ detectOpportunities defaultDetectorConfig
              [("A", quoteA), ("B", quoteB)] "BTC/JPY",
              (o.buyExchange = a ∨ o.buyExchange = b)
                ∧ (o.sellExchange = a ∨ o.sellExchange = b)) ↔
            (defaultDetectorConfig.minProfitThreshold * 100 ≤ specPriceDiffPct qa qb
              ∧ 0 < specEstimatedProfitPct defaultDetectorConfig "BTC/JPY" a qa b qb)))
      ∧ (∀ (a b : String) (qa qb : Quote),
          ((a, qa), (b, qb)) ∈ pairCombos [("A", quoteA), ("B", quoteB)] →
          ∀ o ∈ detectOpportunities defaultDetectorConfig
              [("A", quoteA), ("B", quoteB)] "BTC/JPY",
            (o.buyExchange = a ∨ o.buyExchange = b) →
            (o.sellExchange = a ∨ o.sellExchange = b) →
            o.buyPrice = min qa.ask qb.ask ∧ o.sellPrice = max qa.bid qb.bid
              ∧ o.priceDiffPct = specPriceDiffPct qa qb
              ∧ o.estimatedProfitPct
                  = specEstimatedProfitPct defaultDetectorConfig "BTC/JPY" a qa b qb) :=
  C1_direct_minmax defaultDetectorConfig [("A", quoteA), ("B", quoteB)] "BTC/JPY"
    (by decide) (by decide)
    (by rw [show baseOf "BTC/JPY" = "BTC" from rfl]; norm_num [defaultDetectorConfig])
    (by norm_num [defaultDetectorConfig])

/-! ## C2 — profitability invariant of emitted opportunities -/

/-- C2: every opportunity in the list returned by `detect_opportunities`,
and every non-`None` result of `_check_arbitrage_opportunity`, satisfies
`sell_price > buy_price` and a positive estimated profit, for positive
input prices (and the positive profit thresholds the detectors are
configured with — the defaults are 0.003, 0.001 and 0.002). -/
theorem C2_opportunities_profitable
    (cfg : DetectorConfig) (prices : List (String × Quote)) (sym : String)
    (hth : 0 < cfg.minProfitThreshold)
    (hpos : ∀ p ∈ prices, 0 < p.2.bid ∧ 0 < p.2.ask)
    (minTh : ℚ) (hminTh : 0 < minTh) :
    (∀ o ∈ detectOpportunities cfg prices sym,
        o.buyPrice < o.sellPrice ∧ 0 < o.estimatedProfitPct)
      ∧ (∀ (ps : String) (e1 e2 : ExInfo) (t : String) (o : AdvOpportunity),
          checkArbitrageOpportunity minTh ps e1 e2 t = some o →
          o.buyPrice < o.sellPrice ∧ 0 < o.profitPercentage) := by
  constructor
  · intro o ho
    obtain ⟨p, hp, hcp⟩ := mem_detectOpportunities.mp ho
    obtain ⟨hv, hbuy, hdiff, hest, heq⟩ := checkPair_some_facts hcp
    refine ⟨?_, hest⟩
    have h1 : 0 < o.priceDiffPct := lt_of_lt_of_le (by linarith) hdiff
    rw [heq] at h1
    have h2 : 0 < (o.sellPrice - o.buyPrice) / o.buyPrice := by linarith
    rcases div_pos_iff.mp h2 with ⟨h3, _⟩ | ⟨_, h4⟩
    · linarith
    · linarith
  · intro ps e1 e2 t o h
    obtain ⟨hv, hlt, hthr⟩ := checkArb_some_facts h
    refine ⟨hlt, lt_of_lt_of_le ?_ hthr⟩
    split_ifs <;> linarith

/-- C2 witness: the theorem applied to the default detector
configuration and a concrete positive price map. -/
theorem C2_opportunities_profitable_witness :
    (∀ o ∈ detectOpportunities defaultDetectorConfig
        [("A", quoteA), ("B", quoteB)] "BTC/JPY",
        o.buyPrice < o.sellPrice ∧ 0 < o.estimatedProfitPct)
      ∧ (∀ (ps : String) (e1 e2 : ExInfo) (t : String) (o : AdvOpportunity),
          checkArbitrageOpportunity (3/1000) ps e1 e2 t = some o →
          o.buyPrice < o.sellPrice ∧ 0 < o.profitPercentage) :=
  C2_opportunities_profitable defaultDetectorConfig [("A", quoteA), ("B", quoteB)]
    "BTC/JPY" (by norm_num [defaultDetectorConfig]) (by decide) (3/1000) (by norm_num)

/-! ## C3 — no self-arbitrage -/

/-- C3: every opportunity emitted by the detection strategies has
distinct buy and sell venues: `detect_opportunities` enumerates pairs of
distinct dict keys, and the advanced direct path skips entries with equal
exchange codes before calling `_check_arbitrage_opportunity`. -/
theorem C3_no_self_arbitrage
    (cfg : DetectorConfig) (prices : List (String × Quote)) (sym : String)
    (hnd : (prices.map Prod.fst).Nodup) :
    (∀ o ∈ detectOpportunities cfg prices sym, o.buyExchange ≠ o.sellExchange)
      ∧ (∀ (minTh : ℚ) (ps : String) (entries : List ExInfo),
          ∀ o ∈ directPairOpportunities minTh ps entries,
            o.buyExchangeCode ≠ o.sellExchangeCode) := by
  constructor
  · intro o ho
    obtain ⟨⟨x, y⟩, hp, hcp⟩ := mem_detectOpportunities.mp ho
    have hne := pairCombos_keys_ne hnd hp
    obtain ⟨hv, -, -, -, -⟩ := checkPair_some_facts hcp
    rcases hv with ⟨h1, h2⟩ | ⟨h1, h2⟩
    · rw [h1, h2]; exact hne
    · rw [h1, h2]; exact hne.symm
  · intro minTh ps entries o ho
    rw [directPairOpportunities, List.mem_filterMap] at ho
    obtain ⟨p, hp, hres⟩ := ho
    by_cases hc : p.1.exchangeCode = p.2.exchangeCode
    · rw [if_pos hc] at hres
      exact Option.noConfusion hres
    · rw [if_neg hc] at hres
      obtain ⟨hv, -, -⟩ := checkArb_some_facts hres
      rcases hv with ⟨h1, h2⟩ | ⟨h1, h2⟩
      · rw [h1, h2]; exact hc
      · rw [h1, h2]; exact fun hh => hc hh.symm

/-- C3 witness: the theorem applied to a concrete two-venue price map
with distinct keys. -/
theorem C3_no_self_arbitrage_witness :
    (∀ o ∈ detectOpportunities defaultDetectorConfig
        [("A", quoteA), ("B", quoteB)] "BTC/JPY",
        o.buyExchange ≠ o.sellExchange)
      ∧ (∀ (minTh : ℚ) (ps : String) (entries : List ExInfo),
          ∀ o ∈ directPairOpportunities minTh ps entries,
            o.buyExchangeCode ≠ o.sellExchangeCode) :=
  C3_no_self_arbitrage defaultDetectorConfig [("A", quoteA), ("B", quoteB)]
    "BTC/JPY" (by decide)

/-! ## C4 — hot-path freshness lemmas -/

theorem alookup_of_mem_keysNodup {α : Type} {k : String} {v : α} :
    ∀ {m : List (String × α)}, (m.map Prod.fst).Nodup → (k, v) ∈ m →
      alookup k m = some v := by
  intro m
  induction m with
  | nil => intro _ h; simp at h
  | cons p ps ih =>
    intro hnd h
    simp only [List.map_cons, List.nodup_cons] at hnd
    rcases List.mem_cons.mp h with h1 | h1
    · rw [← h1]
      simp
    · have hk : p.1 ≠ k := by
        intro he
        exact hnd.1 (he ▸ List.mem_map_of_mem Prod.fst h1)
      simp only [alookup_cons, hk, if_false, if_neg]
      exact ih hnd.2 h1

theorem mem_latestRows_iff {now : ℤ} {ticks : List Tick} {t : Tick} :
    t ∈ latestRows now ticks ↔
      t ∈ ticks ∧ (now - 60 < t.ts) ∧
        ∀ u ∈ ticks, u.exchange = t.exchange → now - 60 < u.ts → u.ts ≤ t.ts := by
  rw [latestRows, List.mem_filter]
  simp only [freshDet, List.all_eq_true, Bool.and_eq_true, decide_eq_true_iff,
    and_congr_right_iff]

theorem latestRows_overall_max {now : ℤ} {ticks : List Tick} {t : Tick}
    (h : t ∈ latestRows now ticks) :
    ∀ u ∈ ticks, u.exchange = t.exchange → u.ts ≤ t.ts := by
  obtain ⟨hmem, hfresh, hmax⟩ := mem_latestRows_iff.mp h
  intro u hu he
  by_cases hlt : t.ts < u.ts
  · exact hmax u hu he (by omega)
  · omega

theorem nodup_pairwise_ne {β γ : Type} (f : β → γ) :
    ∀ {l : List β}, l.Nodup → (∀ a ∈ l, ∀ b ∈ l, f a = f b → a = b) →
      l.Pairwise (fun a b => f a ≠ f b) := by
  intro l
  induction l with
  | nil => intro _ _; exact List.Pairwise.nil
  | cons a as ih =>
    intro hnd hinj
    rw [List.nodup_cons] at hnd
    refine List.Pairwise.cons ?_ (ih hnd.2 ?_)
    · intro b hb he
      have := hinj a (List.mem_cons_self _ _) b (List.mem_cons_of_mem _ hb) he
      exact hnd.1 (this ▸ hb)
    · intro x hx y hy
      exact hinj x (List.mem_cons_of_mem _ hx) y (List.mem_cons_of_mem _ hy)

theorem keepLatest_eq (m : List (String × Tick)) (t : Tick) :
    keepLatest m t =
      match alookup t.exchange m with
      | none => dictSet m t.exchange t
      | some u => if u.ts < t.ts then dictSet m t.exchange t else m := by
  cases h : alookup t.exchange m with
  | none => simp [keepLatest, dictSet, h]
  | some u => simp [keepLatest, dictSet, h]

theorem advFold_facts :
    ∀ (L : List Tick) (acc : List (String × Tick)),
      (acc.map Prod.fst).Nodup →
      (∀ p ∈ acc, p.2.exchange = p.1) →
      ((L.foldl keepLatest acc).map Prod.fst).Nodup
        ∧ (∀ p ∈ L.foldl keepLatest acc, (p ∈ acc ∨ p.2 ∈ L) ∧ p.2.exchange = p.1)
        ∧ (∀ e u0, alookup e acc = some u0 →
            ∃ u, alookup e (L.foldl keepLatest acc) = some u ∧ u0.ts ≤ u.ts)
        ∧ (∀ w ∈ L, ∃ u, alookup w.exchange (L.foldl keepLatest acc) = some u
            ∧ w.ts ≤ u.ts) := by
  intro L
  induction L with
  | nil =>
    intro acc hnd hex
    refine ⟨hnd, ?_, ?_, ?_⟩
    · intro p hp; exact ⟨Or.inl hp, hex p hp⟩
    · intro e u0 h; exact ⟨u0, h, le_refl _⟩
    · intro w hw; simp at hw
  | cons t L ih =>
    intro acc hnd hex
    have hsplit : keepLatest acc t = dictSet acc t.exchange t ∨ keepLatest acc t = acc := by
      rw [keepLatest_eq]
      cases h : alookup t.exchange acc with
      | none => exact Or.inl rfl
      | some u =>
        by_cases hts : u.ts < t.ts
        · simp [hts]
        · simp [hts]
    have hnd2 : ((keepLatest acc t).map Prod.fst).Nodup := by
      rcases hsplit with h | h <;> rw [h]
      · exact keysNodup_dictSet _ _ hnd
      · exact hnd
    have hex2 : ∀ p ∈ keepLatest acc t, p.2.exchange = p.1 := by
      rcases hsplit with h | h <;> rw [h]
      · intro p hp
        rcases mem_dictSet hp with h1 | h1
        · exact hex p h1
        · rw [h1]
      · exact hex
    obtain ⟨ihnd, ihmem, ihmono, ihcov⟩ := ih (keepLatest acc t) hnd2 hex2
    refine ⟨ihnd, ?_, ?_, ?_⟩
    · intro p hp
      obtain ⟨h1, h2⟩ := ihmem p hp
      refine ⟨?_, h2⟩
      rcases h1 with h1 | h1
      · rcases hsplit with h | h
        · rw [h] at h1
          rcases mem_dictSet h1 with h3 | h3
          · exact Or.inl h3
          · right; rw [h3]; exact List.mem_cons_self _ _
        · rw [h] at h1
          exact Or.inl h1
      · right; exact List.mem_cons_of_mem _ h1
    · -- monotone
      intro e u0 h0
      by_cases he : e = t.exchange
      · have h0t : alookup t.exchange acc = some u0 := he ▸ h0
        by_cases hts : u0.ts < t.ts
        · have hkeep : keepLatest acc t = dictSet acc t.exchange t := by
            rw [keepLatest_eq, h0t]
            exact if_pos hts
          have hstep : alookup e (keepLatest acc t) = some t := by
            rw [hkeep, he, alookup_dictSet_self]
          obtain ⟨u, hu, hle⟩ := ihmono e t hstep
          exact ⟨u, hu, by omega⟩
        · have hkeep : keepLatest acc t = acc := by
            rw [keepLatest_eq, h0t]
            exact if_neg hts
          exact ihmono e u0 (by rw [hkeep]; exact h0)
      · have hagree : alookup e (keepLatest acc t) = alookup e acc := by
          rcases hsplit with h | h
          · rw [h]
            exact alookup_dictSet_ne _ _ _ he
          · rw [h]
        exact ihmono e u0 (hagree ▸ h0)
    · -- coverage
      intro w hw
      rcases List.mem_cons.mp hw with hw1 | hw1
      · subst hw1
        cases h0 : alookup w.exchange acc with
        | none =>
          have hkeep : keepLatest acc w = dictSet acc w.exchange w := by
            rw [keepLatest_eq, h0]
          have hstep : alookup w.exchange (keepLatest acc w) = some w := by
            rw [hkeep, alookup_dictSet_self]
          obtain ⟨u, hu, hle⟩ := ihmono w.exchange w hstep
          exact ⟨u, hu, hle⟩
        | some u0 =>
          by_cases hts : u0.ts < w.ts
          · have hkeep : keepLatest acc w = dictSet acc w.exchange w := by
              rw [keepLatest_eq, h0]
              exact if_pos hts
            have hstep : alookup w.exchange (keepLatest acc w) = some w := by
              rw [hkeep, alookup_dictSet_self]
            obtain ⟨u, hu, hle⟩ := ihmono w.exchange w hstep
            exact ⟨u, hu, hle⟩
          · have hkeep : keepLatest acc w = acc := by
              rw [keepLatest_eq, h0]
              exact if_neg hts
            obtain ⟨u, hu, hle⟩ := ihmono w.exchange u0 (by rw [hkeep]; exact h0)
            exact ⟨u, hu, by omega⟩
      · exact ihcov w hw1


/-- C4: the detection hot-path reads return at most one quote per
exchange, namely that exchange's most recent tick, include a tick only if
it lies within the 300-second freshness window, and exclude any leg older
than 300 seconds.  This covers `get_latest_prices` (whose window,
`timedelta(minutes=1)`, is stricter than W = 300 s) and the
latest-per-exchange grouping of `analyze_direct_arbitrage` (window
exactly 300 s).  The two hypotheses are the `price_ticks` composite
primary key: no duplicate rows, and per (exchange, pair) at most one row
per timestamp. -/
theorem C4_hot_path_latest_fresh
    (now : ℤ) (ticks : List Tick)
    (hnd : ticks.Nodup)
    (huniq : ∀ t ∈ ticks, ∀ u ∈ ticks, t.exchange = u.exchange → t.ts = u.ts → t = u) :
    List.Pairwise (fun a b => a.exchange ≠ b.exchange) (latestRows now ticks)
      ∧ (∀ t ∈ latestRows now ticks,
          t ∈ ticks ∧ now - t.ts ≤ 300
            ∧ ∀ u ∈ ticks, u.exchange = t.exchange → u.ts ≤ t.ts)
      ∧ (∀ t ∈ ticks, 300 < now - t.ts → t ∉ latestRows now ticks)
      ∧ ((advancedLatest now ticks).map Prod.fst).Nodup
      ∧ (∀ e u, (e, u) ∈ advancedLatest now ticks →
          u ∈ ticks ∧ u.exchange = e ∧ now - u.ts ≤ 300
            ∧ ∀ w ∈ ticks, w.exchange = e → w.ts ≤ u.ts)
      ∧ (∀ w ∈ ticks, 300 < now - w.ts → ∀ e, (e, w) ∉ advancedLatest now ticks) := by
  obtain ⟨fnd, fmem, fmono, fcov⟩ :=
    advFold_facts (ticks.filter (freshAdv now)) [] (by simp) (by simp)
  have hadv : ∀ e u, (e, u) ∈ advancedLatest now ticks →
      u ∈ ticks ∧ u.exchange = e ∧ now - u.ts ≤ 300
        ∧ ∀ w ∈ ticks, w.exchange = e → w.ts ≤ u.ts := by
    intro e u hmem
    rw [advancedLatest] at hmem
    obtain ⟨h1, h2⟩ := fmem (e, u) hmem
    have hu2 : u ∈ ticks.filter (freshAdv now) := by
      rcases h1 with h1 | h1
      · simp at h1
      · exact h1
    rw [List.mem_filter] at hu2
    have hfresh : now - 300 ≤ u.ts := by
      have := hu2.2
      simpa [freshAdv] using this
    refine ⟨hu2.1, h2, by omega, ?_⟩
    intro w hw he
    by_cases hwf : now - 300 ≤ w.ts
    · have hwmem : w ∈ ticks.filter (freshAdv now) :=
        List.mem_filter.mpr ⟨hw, by simpa [freshAdv] using hwf⟩
      obtain ⟨u2, hu2eq, hle2⟩ := fcov w hwmem
      have hueq : alookup e (advancedLatest now ticks) = some u :=
        alookup_of_mem_keysNodup (by rw [advancedLatest]; exact fnd) hmem
      rw [advancedLatest] at hueq
      rw [he] at hu2eq
      rw [hueq] at hu2eq
      injection hu2eq with hu2eq
      rw [hu2eq]
      exact hle2
    · omega
  refine ⟨?_, ?_, ?_, by rw [advancedLatest]; exact fnd, hadv, ?_⟩
  · -- at most one row per exchange in the detector read
    apply nodup_pairwise_ne Tick.exchange
    · exact List.Nodup.filter _ hnd
    · intro a ha b hb he
      have hamem := (mem_latestRows_iff.mp ha).1
      have hbmem := (mem_latestRows_iff.mp hb).1
      have h1 := latestRows_overall_max ha b hbmem he.symm
      have h2 := latestRows_overall_max hb a hamem he
      exact huniq a hamem b hbmem he (by omega)
  · intro t ht
    obtain ⟨h1, h2, -⟩ := mem_latestRows_iff.mp ht
    exact ⟨h1, by omega, latestRows_overall_max ht⟩
  · intro t ht hstale hmem
    have := (mem_latestRows_iff.mp hmem).2.1
    omega
  · intro w hw hstale e hmem
    have := (hadv e w hmem).2.2.1
    omega

/-- C4 witness: at `now = 600`, a 600-second-old tick of exchange A is
excluded by both reads, while exchange B's most recent of two fresh ticks
is the one returned. -/
theorem C4_hot_path_latest_fresh_witness :
    List.Pairwise (fun a b => a.exchange ≠ b.exchange)
        (latestRows 600 [tickStaleA, tickFreshB, tickOlderB])
      ∧ (∀ t ∈ latestRows 600 [tickStaleA, tickFreshB, tickOlderB],
          t ∈ [tickStaleA, tickFreshB, tickOlderB] ∧ 600 - t.ts ≤ 300
            ∧ ∀ u ∈ [tickStaleA, tickFreshB, tickOlderB],
                u.exchange = t.exchange → u.ts ≤ t.ts)
      ∧ (∀ t ∈ [tickStaleA, tickFreshB, tickOlderB], 300 < 600 - t.ts →
          t ∉ latestRows 600 [tickStaleA, tickFreshB, tickOlderB])
      ∧ ((advancedLatest 600 [tickStaleA, tickFreshB, tickOlderB]).map Prod.fst).Nodup
      ∧ (∀ e u, (e, u) ∈ advancedLatest 600 [tickStaleA, tickFreshB, tickOlderB] →
          u ∈ [tickStaleA, tickFreshB, tickOlderB] ∧ u.exchange = e ∧ 600 - u.ts ≤ 300
            ∧ ∀ w ∈ [tickStaleA, tickFreshB, tickOlderB], w.exchange = e → w.ts ≤ u.ts)
      ∧ (∀ w ∈ [tickStaleA, tickFreshB, tickOlderB], 300 < 600 - w.ts →
          ∀ e, (e, w) ∉ advancedLatest 600 [tickStaleA, tickFreshB, tickOlderB]) :=
  C4_hot_path_latest_fresh 600 [tickStaleA, tickFreshB, tickOlderB]
    (by decide) (by decide)

/-! ## C5 — adapter validation of malformed quotes -/

/-- C5: the claim requires quotes with `ask < bid` to be rejected with a
`MalformedQuote` error and never persisted.  The code performs no such
check: `BitFlyerClient.get_ticker` normalizes and returns the crossed
quote unchanged, and `save_price_tick` persists it as a `PriceTick`. -/
theorem C5_malformed_quote_is_persisted :
    (bitflyerGetTicker "BTC/JPY" malformedResponse).ask
        < (bitflyerGetTicker "BTC/JPY" malformedResponse).bid
      ∧ (savePriceTick [] 1 1 (bitflyerGetTicker "BTC/JPY" malformedResponse)).map
          (fun r => (r.bid, r.ask)) = [(100, 90)] := by
  constructor
  · norm_num [bitflyerGetTicker, malformedResponse]
  · rfl

/-! ## C6 — per-route notification cooldown -/

theorem sendArbitrageAlert_cases (cd : ℤ) (maxPerHour : ℕ) (s : NotifState)
    (now : ℤ) (key : String) (sh ok : Bool) :
    sendArbitrageAlert cd maxPerHour s now key sh ok = (s, false) ∨
      (cooldownActive cd s now key = false ∧
        sendArbitrageAlert cd maxPerHour s now key sh ok =
          ({ lastArb := dictSet s.lastArb key now, hourly := s.hourly ++ [now] }, true)) := by
  rw [sendArbitrageAlert]
  by_cases h1 : sh
  · by_cases h2 : cooldownActive cd s now key
    · left; simp [h1, h2]
    · by_cases h3 : hourlyLimitReached maxPerHour s now
      · left; simp [h1, h2, h3]
      · by_cases h4 : ok
        · right
          refine ⟨by simpa using h2, by simp [h1, h2, h3, h4]⟩
        · left; simp [h1, h2, h3, h4]
  · left; simp [h1]

theorem runEvents_gap (cd : ℤ) (maxPerHour : ℕ) (hcd : cd ≤ 60) :
    ∀ (events : List NotifEvent) (s : NotifState) (tcur : ℤ),
      List.Pairwise (fun a b => eventTime a ≤ eventTime b) events →
      (∀ e ∈ events, tcur ≤ eventTime e) →
      (∀ p ∈ s.lastArb, p.2 ≤ tcur) →
      (s.lastArb.map Prod.fst).Nodup →
      List.Pairwise (fun p q => p.1 = q.1 → p.2 + cd * 60 ≤ q.2)
          (runEvents cd maxPerHour s events).2
        ∧ (∀ p ∈ (runEvents cd maxPerHour s events).2, tcur ≤ p.2)
        ∧ (∀ p ∈ (runEvents cd maxPerHour s events).2, ∀ t0,
            alookup p.1 s.lastArb = some t0 → t0 + cd * 60 ≤ p.2) := by
  intro events
  induction events with
  | nil =>
    intro s tcur _ _ _ _
    refine ⟨List.Pairwise.nil, ?_, ?_⟩ <;> intro p hp <;> simp [runEvents] at hp
  | cons e es ih =>
    intro s tcur hmono htcur hbound hnd
    have hmono2 := (List.pairwise_cons.mp hmono).2
    have hhead := (List.pairwise_cons.mp hmono).1
    have htcur0 : tcur ≤ eventTime e := htcur e (List.mem_cons_self _ _)
    cases e with
    | clear now =>
      simp only [runEvents]
      have hb2 : ∀ p ∈ (clearOldRecords s now).lastArb, p.2 ≤ now := by
        intro p hp
        rw [clearOldRecords] at hp
        simp only [List.mem_filter] at hp
        calc p.2 ≤ tcur := hbound p hp.1
          _ ≤ now := htcur0
      have hnd2 : ((clearOldRecords s now).lastArb.map Prod.fst).Nodup := by
        rw [clearOldRecords]
        exact List.Nodup.sublist (List.Sublist.map _ (List.filter_sublist _)) hnd
      obtain ⟨ih1, ih2, ih3⟩ := ih (clearOldRecords s now) now hmono2
        (fun e2 he2 => hhead e2 he2) hb2 hnd2
      refine ⟨ih1, ?_, ?_⟩
      · intro p hp
        calc tcur ≤ now := htcur0
          _ ≤ p.2 := ih2 p hp
      · intro p hp t0 h0
        by_cases hsurv : now - 3600 < t0
        · have hmem : (p.1, t0) ∈ (clearOldRecords s now).lastArb := by
            rw [clearOldRecords]
            exact List.mem_filter.mpr ⟨alookup_eq_some_mem h0, by simpa using hsurv⟩
          exact ih3 p hp t0 (alookup_of_mem_keysNodup hnd2 hmem)
        · have h1 : t0 ≤ now - 3600 := by omega
          have h2 : now ≤ p.2 := ih2 p hp
          omega
    | send now key sh ok =>
      rcases sendArbitrageAlert_cases cd maxPerHour s now key sh ok with heq | ⟨hcool, heq⟩
      · -- dropped: state and log unchanged
        simp only [runEvents, heq]
        have hb2 : ∀ p ∈ s.lastArb, p.2 ≤ now := by
          intro p hp
          calc p.2 ≤ tcur := hbound p hp
            _ ≤ now := htcur0
        obtain ⟨ih1, ih2, ih3⟩ := ih s now hmono2 (fun e2 he2 => hhead e2 he2) hb2 hnd
        refine ⟨by simpa using ih1, ?_, ?_⟩
        · intro p hp
          calc tcur ≤ now := htcur0
            _ ≤ p.2 := ih2 p hp
        · intro p hp t0 h0
          exact ih3 p hp t0 h0
      · -- emitted
        simp only [runEvents, heq]
        set s2 : NotifState :=
          { lastArb := dictSet s.lastArb key now, hourly := s.hourly ++ [now] } with hs2
        have hb2 : ∀ p ∈ s2.lastArb, p.2 ≤ now := by
          intro p hp
          rcases mem_dictSet hp with h1 | h1
          · calc p.2 ≤ tcur := hbound p h1
              _ ≤ now := htcur0
          · rw [h1]
        have hnd2 : (s2.lastArb.map Prod.fst).Nodup := keysNodup_dictSet _ _ hnd
        obtain ⟨ih1, ih2, ih3⟩ := ih s2 now hmono2 (fun e2 he2 => hhead e2 he2) hb2 hnd2
        refine ⟨?_, ?_, ?_⟩
        · simp only [if_pos, List.singleton_append]
          rw [List.pairwise_cons]
          refine ⟨?_, ih1⟩
          intro q hq hk
          have : alookup q.1 s2.lastArb = some now := by
            rw [hs2, ← hk, alookup_dictSet_self]
          exact ih3 q hq now this
        · intro p hp
          simp only [if_pos, List.singleton_append, List.mem_cons] at hp
          rcases hp with hp | hp
          · rw [hp]; exact htcur0
          · calc tcur ≤ now := htcur0
              _ ≤ p.2 := ih2 p hp
        · intro p hp t0 h0
          simp only [if_pos, List.singleton_append, List.mem_cons] at hp
          rcases hp with hp | hp
          · -- the new emission itself
            rw [hp] at h0
            have hk0 : alookup key s.lastArb = some t0 := h0
            rw [cooldownActive, hk0] at hcool
            have hge : ¬(now - t0 < cd * 60) := by simpa using hcool
            have hgoal : t0 + cd * 60 ≤ now := by omega
            rw [hp]
            exact hgoal
          · by_cases hk : p.1 = key
            · have hlook : alookup p.1 s2.lastArb = some now := by
                rw [hs2, hk, alookup_dictSet_self]
              have h1 := ih3 p hp now hlook
              have h2 : t0 ≤ tcur := hbound (p.1, t0) (alookup_eq_some_mem h0)
              have h3 : tcur ≤ now := htcur0
              omega
            · have hlook : alookup p.1 s2.lastArb = some t0 := by
                rw [hs2, alookup_dictSet_ne _ _ _ hk]
                exact h0
              exact ih3 p hp t0 hlook


/-- C6 counterexample: with `cooldown_minutes = 120`, a successful alert
at t = 0 s, a `clear_old_records` at t = 3601 s (which deletes the
route's cooldown record because it is older than one hour), and a second
alert at t = 3601 s: both alerts are emitted, 3601 s apart, far less than
the 7200 s cooldown the claim promises for every configured value. -/
theorem C6_counterexample :
    emittedLog 120 20
        [.send 0 "BTC/JPY:gmo->bitbank" true true, .clear 3601,
          .send 3601 "BTC/JPY:gmo->bitbank" true true]
      = [("BTC/JPY:gmo->bitbank", 0), ("BTC/JPY:gmo->bitbank", 3601)]
      ∧ (3601 : ℤ) - 0 < 120 * 60 := by
  constructor
  · decide
  · decide

/-- C6 (amended): provided `cooldown_minutes ≤ 60` (the default is 5;
`clear_old_records` deletes cooldown records after one hour, so longer
cooldowns are not honored across a cleanup), any two successful arbitrage
emissions with the same route key `"{pair}:{buy}->{sell}"` are at least
`cooldown_minutes` apart, over every sequence of alert attempts and
cleanups with nondecreasing times starting from a fresh manager. -/
theorem C6_cooldown_gap
    (cd : ℤ) (maxPerHour : ℕ) (hcd : cd ≤ 60)
    (events : List NotifEvent)
    (hmono : List.Pairwise (fun a b => eventTime a ≤ eventTime b) events) :
    List.Pairwise (fun p q => p.1 = q.1 → p.2 + cd * 60 ≤ q.2)
      (emittedLog cd maxPerHour events) := by
  rw [emittedLog]
  cases events with
  | nil => simp [runEvents]
  | cons e es =>
    refine (runEvents_gap cd maxPerHour hcd (e :: es) ⟨[], []⟩ (eventTime e) hmono
      ?_ (by simp) (by simp)).1
    intro e2 he2
    rcases List.mem_cons.mp he2 with h | h
    · rw [h]
    · exact (List.pairwise_cons.mp hmono).1 e2 h

/-- C6 witness: the amended theorem at the default cooldown of 5 minutes
on a concrete two-attempt trace. -/
theorem C6_cooldown_gap_witness :
    List.Pairwise (fun p q => p.1 = q.1 → p.2 + 5 * 60 ≤ q.2)
      (emittedLog 5 20
        [.send 0 "BTC/JPY:gmo->bitbank" true true,
          .send 500 "BTC/JPY:gmo->bitbank" true true]) :=
  C6_cooldown_gap 5 20 (by norm_num) _ (by decide)

/-! ## C7 — FX fallback vs cached value -/

/-- C7 counterexample: a state that has `USDJPY = 150` cached and is due
for a refresh.  All three sources fail, yet `get_rate` serves the
hard-coded fallback 155, not the previously cached 150 — the refresh
overwrote the cache. -/
theorem C7_counterexample :
    alookup "USDJPY" ([("USDJPY", 150)] : List (String × ℚ)) = some 150
      ∧ shouldUpdate ⟨[("USDJPY", 150)], some 0⟩ 1000 = true
      ∧ (getRate ⟨[("USDJPY", 150)], some 0⟩ 1000 [none, none, none] "USDJPY").2 = 155 := by
  refine ⟨?_, rfl, ?_⟩ <;> decide

/-- C7 (amended): when a refresh attempt fails on all sources,
`update_rates` overwrites the USDJPY cache entry with the hard-coded
fallback and `get_rate` serves 155 regardless of any previously cached
value; the previously cached value is served only when no refresh is due. -/
theorem C7_all_sources_fail_serves_fallback
    (s : FXState) (now : ℤ) (fetches : List (Option ℚ))
    (hfail : firstRate fetches = none) :
    (shouldUpdate s now = true → (getRate s now fetches "USDJPY").2 = 155)
      ∧ (shouldUpdate s now = false → ∀ r, alookup "USDJPY" s.rates = some r →
          (getRate s now fetches "USDJPY").2 = r) := by
  constructor
  · intro hdue
    simp only [getRate, hdue, if_true, updateRates, hfail]
    rw [alookup_dictSet_self]
    rfl
  · intro hnot r hr
    simp [getRate, hnot, hr]

/-- C7 witness: the amended theorem applied at the counterexample state
(refresh due) and at a fresh state (cache served). -/
theorem C7_all_sources_fail_serves_fallback_witness :
    (getRate ⟨[("USDJPY", 150)], some 0⟩ 1000 [none, none, none] "USDJPY").2 = 155
      ∧ (getRate ⟨[("USDJPY", 150)], some 0⟩ 100 [none, none, none] "USDJPY").2 = 150 := by
  constructor
  · exact (C7_all_sources_fail_serves_fallback ⟨[("USDJPY", 150)], some 0⟩ 1000
      [none, none, none] rfl).1 (by decide)
  · exact (C7_all_sources_fail_serves_fallback ⟨[("USDJPY", 150)], some 0⟩ 100
      [none, none, none] rfl).2 (by decide) 150 (by decide)

/-! ## C8 — monitoring-only operations -/

/-- C8: the claim requires `place_order`, `cancel_order` and
`list_orders` on monitoring-only venues to fail with
`UnsupportedOperation`.  The Binance collector's implementations instead
silently succeed, returning empty values. -/
theorem C8_binance_stub_ops_silently_succeed :
    binancePlaceOrder "BTC/USDT" "buy" 1 "market" none = .ok []
      ∧ binanceCancelOrder "12345" none = .ok []
      ∧ binanceGetOrders none none = .ok [] :=
  ⟨rfl, rfl, rfl⟩

/-! ## C9 — quiet hours -/

/-- C9: quiet hours wrap across midnight: with the window 23:00–07:00
enabled, 02:00 is inside (blocked) and 08:00 is outside (allowed); for a
non-wrapping window (start ≤ end) a time is inside iff
start ≤ time ≤ end. -/
theorem C9_quiet_hours_wrap
    (q : QuietHoursConfig) (henabled : q.enabled = true)
    (hwrap : strLe q.startTime q.endTime = true) (c : String) :
    isQuietHours ⟨true, "23:00", "07:00"⟩ "02:00" = true
      ∧ isQuietHours ⟨true, "23:00", "07:00"⟩ "08:00" = false
      ∧ (isQuietHours q c = true ↔
          (strLe q.startTime c = true ∧ strLe c q.endTime = true)) := by
  refine ⟨by decide, by decide, ?_⟩
  rw [isQuietHours, henabled]
  simp [hwrap]

/-- C9 witness: the non-wrapping clause at the window 09:00–17:00 and
the time 12:00. -/
theorem C9_quiet_hours_wrap_witness :
    isQuietHours ⟨true, "09:00", "17:00"⟩ "12:00" = true ↔
      (strLe "09:00" "12:00" = true ∧ strLe "12:00" "17:00" = true) :=
  (C9_quiet_hours_wrap ⟨true, "09:00", "17:00"⟩ rfl (by decide) "12:00").2.2

/-! ## C10 — totality of get_rate -/

/-- C10: `get_rate` is total over its pair argument: it serves the cached
rate when present, else the pair's entry of the hard-coded fallback
table, else `Decimal('155.0')`; in particular a pair the service has
never heard of, such as EURJPY, yields 155. -/
theorem C10_get_rate_total
    (s : FXState) (now : ℤ) (fetches : List (Option ℚ)) (pair : String) :
    (shouldUpdate s now = false →
      (getRate s now fetches pair).2 =
        (alookup pair s.rates).getD ((alookup pair fallbackRates).getD 155))
      ∧ (pair ≠ "USDJPY" → alookup pair s.rates = none →
          (getRate s now fetches pair).2 = (alookup pair fallbackRates).getD 155)
      ∧ (alookup "EURJPY" s.rates = none →
          (getRate s now fetches "EURJPY").2 = 155) := by
  have hgen : ∀ p : String, p ≠ "USDJPY" → alookup p s.rates = none →
      (getRate s now fetches p).2 = (alookup p fallbackRates).getD 155 := by
    intro p hp hnone
    by_cases hdue : shouldUpdate s now
    · simp only [getRate, hdue, if_true, updateRates]
      cases hfr : firstRate fetches with
      | some r => simp only; rw [alookup_dictSet_ne _ _ _ hp, hnone]; rfl
      | none => simp only; rw [alookup_dictSet_ne _ _ _ hp, hnone]; rfl
    · simp only [Bool.not_eq_true] at hdue
      simp [getRate, hdue, hnone]
  refine ⟨?_, hgen pair, ?_⟩
  · intro hnot
    simp [getRate, hnot]
  · intro hnone
    have hh := hgen "EURJPY" (by decide) hnone
    rw [hh]
    decide

/-- C10 witness: a never-cached pair yields the USDJPY fallback value. -/
theorem C10_get_rate_total_witness :
    (getRate ⟨[], none⟩ 0 [none, none, none] "EURJPY").2 = 155 :=
  (C10_get_rate_total ⟨[], none⟩ 0 [none, none, none] "EURJPY").2.2 rfl

end CryptArb
